import Mathlib

/-!
Verification development for the obsidian-to-confluence publishing plugin.

The embedding covers the two core components described in the repository:

* the ADF-to-storage-format markup codec (`src/AdfToStorageFormat.ts`,
  provided as `src/unnamed/part_000`): `escapeHtml`, `convertText`,
  `applyMark`, `convertCodeBlock`, `convertMedia`, `convertNode`,
  `convertChildren`, `convertAdfToStorageFormat`;
* the transport adapter (`src/MyBaseClient.ts`): the outbound rewriting in
  `sendRequest` (ADF-to-storage substitution, ancestor stripping on the
  Data Center variant, PUT-to-POST rewrite for attachment uploads), the
  inbound response processing (`processAndReturn`: container polyfill and
  the attachment-filename cache `attachmentFileMap`), and the Data Center
  duplicate-filename retry protocol.

JavaScript strings are Lean `String`s, JS numbers used by the codec
(heading level, widths, col/row spans) are `Nat`, absent-or-present values
are `Option`, and JS truthiness of a string s is `s ≠ ""`.  Network calls
made by the retry protocol are modelled by passing the responses the
network would return as explicit arguments, and the follow-up requests the
adapter issues are returned as an explicit trace.
-/

namespace OC

/-! ### Generic list-of-character helpers (JS string methods) -/

/-- `startsWithL pat l` : does `l` start with `pat`? -/
def startsWithL : List Char → List Char → Bool
  | [], _ => true
  | _ :: _, [] => false
  | p :: ps, c :: cs => (p == c) && startsWithL ps cs

/-- `containsSubL pat l` : does `pat` occur as a contiguous substring of `l`?
(JS `String.prototype.includes` / an unanchored regex literal match). -/
def containsSubL (pat : List Char) : List Char → Bool
  | [] => startsWithL pat []
  | c :: rest => startsWithL pat (c :: rest) || containsSubL pat rest

/-- `containsSubstr s pat` : JS `s.includes(pat)`. -/
def containsSubstr (s pat : String) : Bool :=
  containsSubL pat.data s.data

/-- `endsWithL pat l` : does `l` end with `pat`? -/
def endsWithL (pat l : List Char) : Bool :=
  startsWithL pat.reverse l.reverse

/-- Suffix of `l` after the first occurrence of `pat`; `none` when `pat`
does not occur.  (Used to model anchoring a regex at its first match.) -/
def dropThroughSub (pat : List Char) : List Char → Option (List Char)
  | [] => if startsWithL pat [] then some [] else none
  | c :: rest =>
    if startsWithL pat (c :: rest) then some ((c :: rest).drop pat.length)
    else dropThroughSub pat rest

/-- Decimal digit characters of `n`; fuel-based so that it reduces in the
kernel.  The fuel `n+1` always suffices. -/
def natCharsAux : Nat → Nat → List Char
  | 0, _ => []
  | fuel + 1, n =>
    if n < 10 then [Nat.digitChar n]
    else natCharsAux fuel (n / 10) ++ [Nat.digitChar (n % 10)]

/-- JS number-to-string interpolation `${n}` for a natural number. -/
def natStr (n : Nat) : String :=
  ⟨natCharsAux (n + 1) n⟩

/-- JS truthiness filter for an optional string: `undefined`, `null` and
`""` are falsy. -/
def truthy : Option String → Option String
  | some s => if s = "" then none else some s
  | none => none

/-- JS `a || b` where `a` is an optional string: return `a` when truthy,
otherwise `b`. -/
def jsOrStr (a : Option String) (b : String) : String :=
  match truthy a with
  | some s => s
  | none => b

/-! ### The attachment-name cache (`attachmentFileMap`, a JS `Map`) -/

/-- Insertion-ordered map from attachment ids / file ids to filenames. -/
abbrev FileMap := List (String × String)

/-- JS `Map.prototype.get`. -/
def lookupFM : FileMap → String → Option String
  | [], _ => none
  | (k, v) :: rest, key => if key = k then some v else lookupFM rest key

/-- JS `Map.prototype.set`: replace the value of an existing key in place,
otherwise append. -/
def mapSet : FileMap → String → String → FileMap
  | [], k, v => [(k, v)]
  | (k', v') :: rest, k, v =>
    if k = k' then (k, v) :: rest else (k', v') :: mapSet rest k v

/-! ### The ADF document tree (data model of the codec) -/

/-- The attribute bag of an ADF node or mark.  Each field is one of the
dynamically-typed `attrs` entries the codec reads. -/
structure Attrs where
  level : Option Nat := none
  language : Option String := none
  fileName : Option String := none
  alt : Option String := none
  type : Option String := none
  url : Option String := none
  width : Option Nat := none
  id : Option String := none
  fileId : Option String := none
  collection : Option String := none
  panelType : Option String := none
  title : Option String := none
  layout : Option String := none
  colspan : Option Nat := none
  rowspan : Option Nat := none
  background : Option String := none
  text : Option String := none
  shortName : Option String := none
  color : Option String := none
  state : Option String := none
  href : Option String := none
deriving Repr, DecidableEq

/-- A text-level mark (`{ type, attrs? }`). -/
structure Mark where
  type : String
  attrs : Attrs := {}
deriving Repr, DecidableEq

mutual
/-- An ADF node `{ type, attrs?, content?, text?, marks? }`.  An absent
`content` is the empty child list, an absent `marks` the empty mark list. -/
inductive AdfNode where
  | mk (type : String) (attrs : Attrs) (content : AdfList)
      (text : Option String) (marks : List Mark)
/-- A list of ADF nodes (declared mutually so that the codec recursion is
structural). -/
inductive AdfList where
  | nil
  | cons (head : AdfNode) (tail : AdfList)
end

def AdfNode.type : AdfNode → String
  | .mk t _ _ _ _ => t

def AdfNode.attrs : AdfNode → Attrs
  | .mk _ a _ _ _ => a

def AdfNode.content : AdfNode → AdfList
  | .mk _ _ c _ _ => c

def AdfNode.text : AdfNode → Option String
  | .mk _ _ _ tx _ => tx

def AdfNode.marks : AdfNode → List Mark
  | .mk _ _ _ _ m => m

/-! ### The markup codec (from `AdfToStorageFormat`) -/

/-- Single character replacement, one pass of a JS
`String.prototype.replace` with a one-character global pattern. -/
def replaceAllChar (c : Char) (r : String) (s : String) : String :=
  ⟨s.data.foldr (fun ch acc => (if ch = c then r.data else [ch]) ++ acc) []⟩

/-- `escapeHtml`: replace `&` then `<` then `>` then `"` by their
entities, exactly as the four chained `.replace` calls in the source. -/
def escapeHtml (text : String) : String :=
  replaceAllChar '"' "&quot;"
    (replaceAllChar '>' "&gt;"
      (replaceAllChar '<' "&lt;"
        (replaceAllChar '&' "&amp;" text)))

/-- Character-level description of `escapeHtml` (used to state the
escaping property). -/
def escCharL (c : Char) : List Char :=
  if c = '&' then "&amp;".data
  else if c = '<' then "&lt;".data
  else if c = '>' then "&gt;".data
  else if c = '"' then "&quot;".data
  else [c]

/-- `applyMark`: wrap already-converted inner markup in the element for one
mark; unknown mark types (and unknown `subsup` subtypes) pass the inner
markup through unchanged. -/
def applyMark (mark : Mark) (innerHtml : String) : String :=
  if mark.type = "strong" then "<strong>" ++ innerHtml ++ "</strong>"
  else if mark.type = "em" then "<em>" ++ innerHtml ++ "</em>"
  else if mark.type = "code" then "<code>" ++ innerHtml ++ "</code>"
  else if mark.type = "strike" then "<s>" ++ innerHtml ++ "</s>"
  else if mark.type = "underline" then "<u>" ++ innerHtml ++ "</u>"
  else if mark.type = "subsup" then
    if mark.attrs.type = some "sub" then "<sub>" ++ innerHtml ++ "</sub>"
    else if mark.attrs.type = some "sup" then "<sup>" ++ innerHtml ++ "</sup>"
    else innerHtml
  else if mark.type = "textColor" then
    "<span style=\"color: " ++ escapeHtml (mark.attrs.color.getD "") ++ "\">"
      ++ innerHtml ++ "</span>"
  else if mark.type = "link" then
    "<a href=\"" ++ escapeHtml (mark.attrs.href.getD "") ++ "\">"
      ++ innerHtml ++ "</a>"
  else innerHtml

/-- `convertText`: HTML-escape the literal text, then apply the marks in
reverse array order (the source's `for (const mark of [...marks].reverse())`
loop), so the first-declared mark ends up outermost. -/
def convertText (n : AdfNode) : String :=
  (n.marks.reverse).foldl (fun html mark => applyMark mark html)
    (escapeHtml (n.text.getD ""))

/-- `node.content?.map(child => child.text ?? "").join("") ?? ""`:
the literal concatenated text of the children of a code block. -/
def codeTextOf : AdfList → String
  | .nil => ""
  | .cons c rest => c.text.getD "" ++ codeTextOf rest

/-- `convertCodeBlock`: a `code` structured macro whose plain-text body is
the raw child text inside a CDATA section, with an optional escaped
`language` parameter. -/
def convertCodeBlock (n : AdfNode) : String :=
  let code := codeTextOf n.content
  let langParam :=
    match truthy n.attrs.language with
    | some language =>
      "<ac:parameter ac:name=\"language\">" ++ escapeHtml language
        ++ "</ac:parameter>"
    | none => ""
  "<ac:structured-macro ac:name=\"code\">" ++ langParam
    ++ "<ac:plain-text-body><![CDATA[" ++ code ++ "]]></ac:plain-text-body>"
    ++ "</ac:structured-macro>"

/-- The `ac:width` attribute emitted for a truthy `attrs.width`. -/
def mediaWidthAttr (attrs : Attrs) : String :=
  match attrs.width with
  | some w => if w ≠ 0 then " ac:width=\"" ++ natStr w ++ "\"" else ""
  | none => ""

/-- Modelled from the spec: the current `AdfToStorageFormat.ts` is not under
`src/` (the `src/unnamed/part_000` copy is a prior revision whose
`convertMedia` has no cache parameter, while the `MyBaseClient.ts` under
`src/` calls `convertAdfToStorageFormat(adfJson, this.attachmentFileMap)`
with two arguments).  The filename-resolution chain follows the spec:
explicit filename attribute (`__fileName`), then alt text, then an
Attachment Name Cache lookup by the node's id, then a lookup by the
alternate file-id; external media emit a URL image; if nothing resolves,
no image element is emitted.  Everything else (the emitted elements, the
escaping, the width attribute) mirrors the prior revision in
`src/unnamed/part_000`. -/
def convertMedia (fm : FileMap) (attrs : Attrs) : String :=
  let filename :=
    jsOrStr attrs.fileName
      (jsOrStr attrs.alt
        (jsOrStr (attrs.id.bind (lookupFM fm))
          (jsOrStr (attrs.fileId.bind (lookupFM fm)) "")))
  let width := mediaWidthAttr attrs
  if attrs.type = some "external" then
    "<ac:image" ++ width ++ ">"
      ++ "<ri:url ri:value=\"" ++ escapeHtml (attrs.url.getD "") ++ "\" />"
      ++ "</ac:image>"
  else if filename ≠ "" then
    "<ac:image" ++ width ++ ">"
      ++ "<ri:attachment ri:filename=\"" ++ escapeHtml filename ++ "\" />"
      ++ "</ac:image>"
  else ""

/-- The `class`/`style` attributes of a `<table>` (`convertTable`). -/
def tableAttrs (attrs : Attrs) : String :=
  let style :=
    match attrs.width with
    | some w => if w ≠ 0 then "width: " ++ natStr w ++ "px;" else ""
    | none => ""
  let styleAttr := if style ≠ "" then " style=\"" ++ style ++ "\"" else ""
  let classAttr :=
    match truthy attrs.layout with
    | some layout => " class=\"" ++ escapeHtml layout ++ "\""
    | none => ""
  classAttr ++ styleAttr

/-- The attribute parts of a table cell (`convertTableCell`): `colspan` and
`rowspan` only when greater than 1, background-color style when present. -/
def cellAttrs (attrs : Attrs) : String :=
  (match attrs.colspan with
   | some c => if c ≠ 0 ∧ 1 < c then " colspan=\"" ++ natStr c ++ "\"" else ""
   | none => "")
  ++ (match attrs.rowspan with
      | some r => if r ≠ 0 ∧ 1 < r then " rowspan=\"" ++ natStr r ++ "\"" else ""
      | none => "")
  ++ (match truthy attrs.background with
      | some b => " style=\"background-color: " ++ escapeHtml b ++ "\""
      | none => "")

/-- `node.attrs?.text ?? node.attrs?.shortName ?? ""` (the emoji branch). -/
def emojiText (attrs : Attrs) : String :=
  match attrs.text with
  | some s => s
  | none =>
    match attrs.shortName with
    | some s => s
    | none => ""

/-- The node `type` strings of the codec's dispatch table. -/
def knownNodeTypes : List String :=
  ["doc", "paragraph", "heading", "text", "hardBreak", "rule", "bulletList",
   "orderedList", "listItem", "blockquote", "codeBlock", "table", "tableRow",
   "tableHeader", "tableCell", "mediaSingle", "mediaGroup", "media",
   "inlineCard", "emoji", "panel", "expand", "nestedExpand", "status",
   "taskList", "taskItem", "mention"]

mutual
/-- `convertNode`: the node-type dispatch table.  The source's guard
`if (!node || !node.type) return ""` comes first: a node is always an
object here, so only the falsy (empty) `type` case remains.  The `switch`
of the source becomes an if-chain; the bodies of the source's
`convertPanel`, `convertExpand`, `convertTable` and `convertTableCell`
helpers are inlined at their call sites.  Unknown types fall through to
children-only rendering. -/
def convertNode (fm : FileMap) : AdfNode → String
  | n@(AdfNode.mk t attrs content _text _marks) =>
    if t = "" then ""
    else if t = "doc" then convertChildren fm content
    else if t = "paragraph" then "<p>" ++ convertChildren fm content ++ "</p>"
    else if t = "heading" then
      let level := attrs.level.getD 1
      "<h" ++ natStr level ++ ">" ++ convertChildren fm content
        ++ "</h" ++ natStr level ++ ">"
    else if t = "text" then convertText n
    else if t = "hardBreak" then "<br />"
    else if t = "rule" then "<hr />"
    else if t = "bulletList" then "<ul>" ++ convertChildren fm content ++ "</ul>"
    else if t = "orderedList" then "<ol>" ++ convertChildren fm content ++ "</ol>"
    else if t = "listItem" then "<li>" ++ convertChildren fm content ++ "</li>"
    else if t = "blockquote" then
      "<blockquote>" ++ convertChildren fm content ++ "</blockquote>"
    else if t = "codeBlock" then convertCodeBlock n
    else if t = "table" then
      "<table" ++ tableAttrs attrs ++ "><tbody>" ++ convertChildren fm content
        ++ "</tbody></table>"
    else if t = "tableRow" then "<tr>" ++ convertChildren fm content ++ "</tr>"
    else if t = "tableHeader" then
      "<th" ++ cellAttrs attrs ++ ">" ++ convertChildren fm content ++ "</th>"
    else if t = "tableCell" then
      "<td" ++ cellAttrs attrs ++ ">" ++ convertChildren fm content ++ "</td>"
    else if t = "mediaSingle" then convertChildren fm content
    else if t = "mediaGroup" then convertChildren fm content
    else if t = "media" then convertMedia fm attrs
    else if t = "inlineCard" then
      "<a href=\"" ++ escapeHtml (attrs.url.getD "") ++ "\">"
        ++ escapeHtml (attrs.url.getD "") ++ "</a>"
    else if t = "emoji" then emojiText attrs
    else if t = "panel" then
      "<ac:structured-macro ac:name=\"panel\">"
        ++ "<ac:parameter ac:name=\"panelType\">"
        ++ escapeHtml (attrs.panelType.getD "info") ++ "</ac:parameter>"
        ++ "<ac:rich-text-body>" ++ convertChildren fm content
        ++ "</ac:rich-text-body>" ++ "</ac:structured-macro>"
    else if t = "expand" ∨ t = "nestedExpand" then
      "<ac:structured-macro ac:name=\"expand\">"
        ++ "<ac:parameter ac:name=\"title\">"
        ++ escapeHtml (attrs.title.getD "") ++ "</ac:parameter>"
        ++ "<ac:rich-text-body>" ++ convertChildren fm content
        ++ "</ac:rich-text-body>" ++ "</ac:structured-macro>"
    else if t = "status" then
      "<ac:structured-macro ac:name=\"status\">"
        ++ "<ac:parameter ac:name=\"title\">"
        ++ escapeHtml (attrs.text.getD "") ++ "</ac:parameter>"
        ++ "<ac:parameter ac:name=\"colour\">"
        ++ escapeHtml (attrs.color.getD "neutral") ++ "</ac:parameter>"
        ++ "</ac:structured-macro>"
    else if t = "taskList" then
      "<ul class=\"task-list\">" ++ convertChildren fm content ++ "</ul>"
    else if t = "taskItem" then
      let checked := if attrs.state = some "DONE" then "checked " else ""
      "<li><ac:task><ac:task-status>"
        ++ (if checked ≠ "" then "complete" else "incomplete")
        ++ "</ac:task-status><ac:task-body>" ++ convertChildren fm content
        ++ "</ac:task-body></ac:task></li>"
    else if t = "mention" then
      "<ac:link><ri:user ri:account-id=\""
        ++ escapeHtml (attrs.id.getD "") ++ "\" /></ac:link>"
    else convertChildren fm content

/-- `convertChildren` restricted to the child list:
`node.content.map(convertNode).join("")`. -/
def convertChildren (fm : FileMap) : AdfList → String
  | .nil => ""
  | .cons n rest => convertNode fm n ++ convertChildren fm rest
end

/-- `convertAdfToStorageFormat`: convert a whole ADF document (children of a
`doc` root, or the node itself otherwise). -/
def convertAdfToStorageFormat (fm : FileMap) (adf : AdfNode) : String :=
  if adf.type = "doc" then convertChildren fm adf.content
  else convertNode fm adf

/-! ### Well-formedness of the emitted markup

A pushdown automaton over characters: it tokenizes tags, self-closing tags
and CDATA sections on the fly and keeps a stack of open element names.  A
string is a well-formed fragment (`WfFrag`) when running the automaton from
text mode leaves any stack unchanged: every opened tag or macro element is
closed, with no mismatched nesting. -/

/-- Characters allowed in an element name. -/
def tagNameChar (c : Char) : Bool :=
  c.isAlpha || c.isDigit || c = ':' || c = '-'

/-- The mode of the markup automaton. -/
inductive WfMode where
  | text
  | afterLt
  | openName (name : List Char)
  | openAttrs (name : List Char) (last : Char)
  | closeName (name : List Char)
  | bang (pending : List Char)
  | cdata (trail : Nat)
deriving Repr, DecidableEq

/-- The full automaton state: a mode and a stack of open element names, or
the absorbing failure state. -/
inductive WfSt where
  | ok (mode : WfMode) (stack : List (List Char))
  | dead
deriving Repr, DecidableEq

/-- What one character does, independently of the stack: continue in a
mode, push or pop an element name, or fail. -/
inductive WfAct where
  | stay (m : WfMode)
  | push (n : List Char) (m : WfMode)
  | pop (n : List Char) (m : WfMode)
  | die
deriving Repr, DecidableEq

/-- The mode transition of the markup automaton on one character. -/
def wfAct : WfMode → Char → WfAct
  | .text, c => if c = '<' then .stay .afterLt else .stay .text
  | .afterLt, c =>
    if c = '/' then .stay (.closeName [])
    else if c = '!' then .stay (.bang "[CDATA[".data)
    else if tagNameChar c then .stay (.openName [c])
    else .die
  | .openName n, c =>
    if tagNameChar c then .stay (.openName (n ++ [c]))
    else if c = '>' then .push n .text
    else if c = '<' then .die
    else .stay (.openAttrs n c)
  | .openAttrs n last, c =>
    if c = '>' then (if last = '/' then .stay .text else .push n .text)
    else if c = '<' then .die
    else .stay (.openAttrs n c)
  | .closeName n, c =>
    if tagNameChar c then .stay (.closeName (n ++ [c]))
    else if c = '>' then .pop n .text
    else .die
  | .bang pending, c =>
    match pending with
    | p :: rest =>
      if c = p then
        (if rest.isEmpty then .stay (.cdata 0) else .stay (.bang rest))
      else .die
    | [] => .die
  | .cdata k, c =>
    if c = ']' then .stay (.cdata (min (k + 1) 2))
    else if c = '>' then (if 2 ≤ k then .stay .text else .stay (.cdata 0))
    else .stay (.cdata 0)

/-- One character step of the markup automaton: apply the mode transition
to the stack. -/
def wfStep : WfSt → Char → WfSt
  | .dead, _ => .dead
  | .ok m st, c =>
    match wfAct m c with
    | .stay m' => .ok m' st
    | .push n m' => .ok m' (n :: st)
    | .pop n m' =>
      match st with
      | top :: st' => if top = n then .ok m' st' else .dead
      | [] => .dead
    | .die => .dead

/-- A well-formed markup fragment: running the automaton over it from text
mode returns to text mode with the stack unchanged, whatever the stack. -/
def WfFrag (s : String) : Prop :=
  ∀ st : List (List Char), s.data.foldl wfStep (.ok .text st) = .ok .text st

/-- Conditions on an attribute section emitted between an element name and
its closing `>`: no `<` or `>` inside, an initial character (when
non-empty) that cannot extend the element name, and a final character that
does not accidentally self-close the element. -/
def AttrProps (s : String) : Prop :=
  (∀ c ∈ s.data, c ≠ '<' ∧ c ≠ '>') ∧
  (s.data = [] ∨ ∃ c0 rest, s.data = c0 :: rest ∧ tagNameChar c0 = false) ∧
  s.data.getLastD ' ' ≠ '/'

/-- Tracking the automaton through a CDATA body: the capped count of
trailing `]` characters, or `none` when the body would end the CDATA
section (it contains the terminator, given a start count of 0). -/
def cdataScan : Nat → List Char → Option Nat
  | k, [] => some k
  | k, c :: rest =>
    if c = ']' then cdataScan (min (k + 1) 2) rest
    else if c = '>' then (if 2 ≤ k then none else cdataScan 0 rest)
    else cdataScan 0 rest

mutual
/-- Input-side safety condition under which the codec's output is
well-formed: no code block's literal body contains the CDATA terminator
`]]>`, and no emoji node's emitted raw text contains `<` (these are the two
places where input text reaches the output without escaping). -/
def safeNode : AdfNode → Bool
  | AdfNode.mk t attrs content _ _ =>
    (if t = "codeBlock" then !containsSubL "]]>".data (codeTextOf content).data
     else true)
    && (if t = "emoji" then !(emojiText attrs).data.contains '<' else true)
    && safeList content
/-- `safeNode` on every node of a list. -/
def safeList : AdfList → Bool
  | .nil => true
  | .cons n rest => safeNode n && safeList rest
end

mutual
/-- A document composed only of supported node types: every node's `type`
is in the codec's dispatch table. -/
def supportedNode : AdfNode → Bool
  | AdfNode.mk t _ content _ _ =>
    knownNodeTypes.contains t && supportedList content
/-- `supportedNode` on every node of a list. -/
def supportedList : AdfList → Bool
  | .nil => true
  | .cons n rest => supportedNode n && supportedList rest
end

/-! ### The transport adapter: outbound request rewriting
(`MyBaseClient.sendRequest`, outbound path) -/

/-- One representation of a page body inside a write payload
(`{ value, representation }`). -/
structure FormatVal where
  value : String
  representation : String
deriving Repr, DecidableEq

/-- The `body` field of a content-update payload: an `atlas_doc_format`
and/or a `storage` entry. -/
structure ReqBody where
  atlas_doc_format : Option FormatVal := none
  storage : Option FormatVal := none
deriving Repr, DecidableEq

/-- A write payload (`requestConfig.data`): the fields the adapter reads or
rewrites (`body`, `ancestors`) plus the remaining fields, which the
adapter's object spreads carry over unchanged. -/
structure ReqData where
  body : Option ReqBody := none
  ancestors : Option (List String) := none
  extra : List (String × String) := []
deriving Repr, DecidableEq

/-- The slice of a `RequestConfig` the outbound rewriting reads. -/
structure RequestConfig where
  method : Option String := none
  url : Option String := none
  data : Option ReqData := none
deriving Repr, DecidableEq

/-- JS `String.prototype.toUpperCase`, character-wise. -/
def toUpperStr (s : String) : String :=
  ⟨s.data.map Char.toUpper⟩

/-- `requestConfig.method?.toUpperCase() === "PUT"`. -/
def methodIsPut (req : RequestConfig) : Bool :=
  match req.method with
  | some m => toUpperStr m == "PUT"
  | none => false

/-- The regex test `/^\/api\/content\//` on an optional URL. -/
def urlIsContentWrite (url : Option String) : Bool :=
  match url with
  | some u => startsWithL "/api/content/".data u.data
  | none => false

/-- The regex test `/^\/api\/content\/[^/]+\/?$/` (a single page path). -/
def isContentPagePath (u : String) : Bool :=
  startsWithL "/api/content/".data u.data &&
    (let after := u.data.drop "/api/content/".data.length
     let seg := after.takeWhile (fun c => c ≠ '/')
     !seg.isEmpty && (after.drop seg.length == [] || after.drop seg.length == ['/']))

/-- The regex test `/\/child\/attachment\/?$/`. -/
def urlEndsAttachment (url : Option String) : Bool :=
  match url with
  | some u =>
    endsWithL "/child/attachment".data u.data
      || endsWithL "/child/attachment/".data u.data
  | none => false

/-- The capture of `/\/api\/content\/([^/]+)\/child\/attachment/` on a char
list: at the first position where `/api/content/` is followed by a
non-empty slash-free segment and then `/child/attachment`, return that
segment. -/
def extractPageIdL : List Char → Option String
  | [] => none
  | c :: rest =>
    if startsWithL "/api/content/".data (c :: rest) then
      let after := (c :: rest).drop "/api/content/".data.length
      let seg := after.takeWhile (fun ch => ch ≠ '/')
      if !seg.isEmpty && startsWithL "/child/attachment".data (after.drop seg.length)
      then some ⟨seg⟩
      else extractPageIdL rest
    else extractPageIdL rest

/-- `extractPageIdL` on a string URL. -/
def extractPageId (u : String) : Option String :=
  extractPageIdL u.data

/-- Global substring replacement (`String.prototype.replace` with a global
multi-character pattern), used for the `/wiki/spaces/` to `/spaces/`
link fix-up on the Data Center variant. -/
def replaceSubL (pat rep : List Char) : List Char → List Char
  | [] => []
  | c :: rest =>
    if h : pat ≠ [] ∧ startsWithL pat (c :: rest) then
      rep ++ replaceSubL pat rep ((c :: rest).drop pat.length)
    else c :: replaceSubL pat rep rest
termination_by l => l.length
decreasing_by
  · simp only [List.length_drop, List.length_cons]
    have : 0 < pat.length := List.length_pos.mpr h.1
    omega
  · simp

/-- `replaceSubL` on strings. -/
def replaceSubstr (s pat rep : String) : String :=
  ⟨replaceSubL pat.data rep.data s.data⟩

/-- Write substitution (`sendRequest`, the first outbound step): on a
content-update `PUT` whose payload carries an `atlas_doc_format` body,
parse the serialized tree and replace the body with the converted storage
representation (with the `/wiki/spaces/` fix-up on the `/rest` variant).
`JSON.parse` is external; it is modelled by the `parse` argument, and a
`parse` result of `none` models the thrown exception, which the source
catches, leaving `requestConfig.data` untouched.  The conversion step never
produces an error value: its result type is again just `RequestConfig`. -/
def writeSubstitution (urlSuffix : String) (fm : FileMap)
    (parse : String → Option AdfNode) (req : RequestConfig) : RequestConfig :=
  match req.data with
  | some d =>
    match d.body with
    | some b =>
      match b.atlas_doc_format with
      | some adfBody =>
        if methodIsPut req && urlIsContentWrite req.url then
          match parse adfBody.value with
          | none => req
          | some adfJson =>
            let storageValue := convertAdfToStorageFormat fm adfJson
            let storageValue :=
              if urlSuffix == "/rest" then
                replaceSubstr storageValue "/wiki/spaces/" "/spaces/"
              else storageValue
            { req with
                data := some
                  { d with
                      body := some
                        { atlas_doc_format := none,
                          storage := some ⟨storageValue, "storage"⟩ } } }
        else req
      | none => req
    | none => req
  | none => req

/-- Ancestor stripping (`sendRequest`, second outbound step): on the Data
Center variant (`urlSuffix = "/rest"`) a page-update `PUT` has its
`ancestors` deleted from the payload; everything else is untouched. -/
def stripAncestors (urlSuffix : String) (req : RequestConfig) : RequestConfig :=
  if urlSuffix == "/rest" && methodIsPut req
      && (match req.url with
          | some u => isContentPagePath u
          | none => false)
      && (match req.data with
          | some d => d.ancestors.isSome
          | none => false) then
    match req.data with
    | some d => { req with data := some { d with ancestors := none } }
    | none => req
  else req

/-- Attachment method rewrite (`sendRequest`, third outbound step): on the
Data Center variant a `PUT` to a `/child/attachment` URL becomes a `POST`,
and the rewrite is remembered in the returned flag
(`isRewrittenAttachmentPost`). -/
def methodRewriteAttachment (urlSuffix : String) (req : RequestConfig) :
    RequestConfig × Bool :=
  if urlSuffix == "/rest" && methodIsPut req && urlEndsAttachment req.url then
    ({ req with method := some "POST" }, true)
  else (req, false)

/-- The complete outbound rewriting pipeline of `sendRequest`, in source
order: write substitution, then ancestor stripping, then the attachment
method rewrite. -/
def outboundTransform (urlSuffix : String) (fm : FileMap)
    (parse : String → Option AdfNode) (req : RequestConfig) :
    RequestConfig × Bool :=
  methodRewriteAttachment urlSuffix
    (stripAncestors urlSuffix (writeSubstitution urlSuffix fm parse req))

/-! ### The transport adapter: inbound response processing
(`processAndReturn` and the attachment-name cache) -/

/-- An attachment's `container` reference. -/
structure ContainerRef where
  id : String
  type : String
deriving Repr, DecidableEq

/-- One attachment descriptor of a `results` sequence:
`{id, type, title, extensions.fileId?, container?}`. -/
structure AttachmentDesc where
  id : Option String := none
  type : Option String := none
  title : Option String := none
  fileId : Option String := none
  container : Option ContainerRef := none
deriving Repr, DecidableEq

/-- A parsed response body, as far as the adapter reads it: an optional
`results` sequence of attachment descriptors. -/
structure RespData where
  results : Option (List AttachmentDesc) := none
deriving Repr, DecidableEq

/-- The container polyfill of `processAndReturn`: on a `/child/attachment`
request URL carrying a page id, every result element without a `container`
gets `container = { id: pageId, type: "page" }`. -/
def polyfillContainers (reqUrl : String) (rd : RespData) : RespData :=
  if containsSubstr reqUrl "/child/attachment" then
    match extractPageId reqUrl with
    | some pid =>
      match rd.results with
      | some rs =>
        { rd with
            results := some (rs.map (fun r =>
              match r.container with
              | none => { r with container := some ⟨pid, "page"⟩ }
              | some _ => r)) }
      | none => rd
    | none => rd
  else rd

/-- One step of the cache update of `processAndReturn`: for a descriptor of
type `"attachment"` with truthy id and title, record `id → title`, and
`extensions.fileId → title` when the file id is truthy and differs from
the id. -/
def stepFileMap (m : FileMap) (r : AttachmentDesc) : FileMap :=
  if r.type = some "attachment" then
    match truthy r.id, truthy r.title with
    | some i, some t =>
      let m1 := mapSet m i t
      (match truthy r.fileId with
       | some f => if f ≠ i then mapSet m1 f t else m1
       | none => m1)
    | _, _ => m
  else m

/-- The cache update of `processAndReturn`: fold `stepFileMap` over the
`results` sequence, when there is one. -/
def updateFileMap (m : FileMap) (rd : RespData) : FileMap :=
  match rd.results with
  | some rs => rs.foldl stepFileMap m
  | none => m

/-- `attachmentFileMap` right after client construction
(`= new Map()`). -/
def initialAttachmentFileMap : FileMap := []

/-- `processAndReturn`: polyfill containers first, then (in the source) the
response middleware observes the polyfilled data, the cache is updated from
it, and the same data is returned to the caller.  The first component is
the data every consumer sees; the second is the updated cache. -/
def processAndReturn (reqUrl : String) (m : FileMap) (rd : RespData) :
    RespData × FileMap :=
  let rd2 := polyfillContainers reqUrl rd
  (rd2, updateFileMap m rd2)

/-! ### The transport adapter: the Data Center duplicate-filename retry
(`sendRequest`, error path) -/

/-- A follow-up HTTP request issued by the retry protocol. -/
structure FollowUpReq where
  url : String
  method : String
  body : String
deriving Repr, DecidableEq

/-- The overall outcome of handling an error response: either the retry
succeeded and the operation reports success with processed data and an
updated cache, or an `HTTPError` with the original status and body
propagates. -/
inductive SendOutcome where
  | ok (data : RespData) (cache : FileMap)
  | httpError (status : Nat) (body : String)
deriving Repr, DecidableEq

/-- The response to the existing-attachment `GET` issued by the retry. -/
structure ListResponse where
  status : Nat
  results : Option (List AttachmentDesc) := none
deriving Repr, DecidableEq

/-- The response to the update-data `POST` issued by the retry.  `textBlank`
models `retryResponse.text?.trim()` being empty; `results`/`asDesc` are the
two views the source takes of the parsed body (`retryData?.results`
present, or the whole body treated as a single descriptor and wrapped). -/
structure RetryResponse where
  status : Nat
  textBlank : Bool := false
  results : Option (List AttachmentDesc) := none
  asDesc : AttachmentDesc := {}
deriving Repr, DecidableEq

/-- `const retryData = text?.trim() ? json : {}` followed by
`retryData?.results ? retryData : { results: [retryData] }`. -/
def wrapRetryData (resp : RetryResponse) : RespData :=
  if resp.textBlank then { results := some [{}] }
  else
    match resp.results with
    | some rs => { results := some rs }
    | none => { results := some [resp.asDesc] }

/-- The extraction
`errorBody.match(/same file name[^:]*:\s*(.+?)(?:\s*$|")/)?.[1]?.trim()`:
take the text after the first `same file name`, skip to the first `:`,
skip whitespace, then capture lazily up to a `"` or trailing whitespace,
and trim.  The lazy capture is `lazyCapture`. -/
def lazyGo : List Char → List Char
  | [] => []
  | c :: rest =>
    if (c :: rest).all Char.isWhitespace then []
    else if c = '"' then []
    else c :: lazyGo rest

/-- The `(.+?)` capture: at least one character, then extend until the rest
is all whitespace or starts with a quote. -/
def lazyCapture : List Char → Option (List Char)
  | [] => none
  | c :: rest => some (c :: lazyGo rest)

/-- JS `String.prototype.trim` on a character list. -/
def trimL (l : List Char) : List Char :=
  ((l.dropWhile Char.isWhitespace).reverse.dropWhile Char.isWhitespace).reverse

/-- The conflicting filename extracted from a duplicate-name error body. -/
def extractFilename (body : String) : Option String :=
  match dropThroughSub "same file name".data body.data with
  | none => none
  | some afterPat =>
    match afterPat.dropWhile (fun c => c ≠ ':') with
    | [] => none
    | _ :: afterColon =>
      match lazyCapture (afterColon.dropWhile Char.isWhitespace) with
      | none => none
      | some cap => some ⟨trimL cap⟩

/-- The error-path handler of `sendRequest` (status ≥ 400).  When the
request was a rewritten attachment `POST` and the body signals a
duplicate-filename conflict, the adapter issues one `GET` listing the
parent page's attachments and, when the conflicting filename matches an
existing attachment with an id, exactly one `POST` of the same binary body
to that attachment's `/data` endpoint; on its success the outcome is the
processed retry response, otherwise the original `HTTPError` propagates.
The two possible network round-trips are passed in as `listResp` and
`retryResp`; the follow-up requests actually issued are returned as a
trace. -/
def dcDuplicateRetry (host urlSuffix : String) (isRewritten : Bool)
    (reqUrl : Option String) (status : Nat) (respText : String)
    (sentBody : String) (cache : FileMap)
    (listResp : ListResponse) (retryResp : RetryResponse) :
    SendOutcome × List FollowUpReq :=
  let errorBody := if respText = "" then "(empty response)" else respText
  if isRewritten && containsSubstr errorBody "same file name" then
    match reqUrl with
    | some u =>
      match extractPageId u with
      | some pageId =>
        let listUrl := host ++ urlSuffix ++ "/api/content/" ++ pageId
          ++ "/child/attachment?limit=200"
        let listFU : FollowUpReq := ⟨listUrl, "GET", ""⟩
        if listResp.status = 200 then
          match listResp.results with
          | some existingAttachments =>
            let targetFilename := extractFilename errorBody
            let existing :=
              match targetFilename with
              | some t =>
                existingAttachments.find?
                  (fun (a : AttachmentDesc) => a.title == some t)
              | none => none
            match existing with
            | some a =>
              match truthy a.id with
              | some aid =>
                let updateUrl := host ++ urlSuffix ++ "/api/content/" ++ pageId
                  ++ "/child/attachment/" ++ aid ++ "/data"
                let retryFU : FollowUpReq := ⟨updateUrl, "POST", sentBody⟩
                if retryResp.status < 400 then
                  let pr := processAndReturn u cache (wrapRetryData retryResp)
                  (SendOutcome.ok pr.1 pr.2, [listFU, retryFU])
                else (SendOutcome.httpError status respText, [listFU, retryFU])
              | none => (SendOutcome.httpError status respText, [listFU])
            | none => (SendOutcome.httpError status respText, [listFU])
          | none => (SendOutcome.httpError status respText, [listFU])
        else (SendOutcome.httpError status respText, [listFU])
      | none => (SendOutcome.httpError status respText, [])
    | none => (SendOutcome.httpError status respText, [])
  else (SendOutcome.httpError status respText, [])

/-! ## Theorems -/

/-! ### Characterization of `escapeHtml` -/

theorem data_ext {s : String} {d : List Char} (h : s.data = d) : s = ⟨d⟩ :=
  congrArg String.mk h

theorem foldr_blob (g : Char → List Char) :
    ∀ (l X : List Char),
      l.foldr (fun ch acc => g ch ++ acc) X
        = l.foldr (fun ch acc => g ch ++ acc) [] ++ X := by
  intro l
  induction l with
  | nil => simp
  | cons c rest ih => intro X; simp [ih X, List.append_assoc]

theorem replaceAllChar_data (c : Char) (r s : String) :
    (replaceAllChar c r s).data
      = s.data.foldr (fun ch acc => (if ch = c then r.data else [ch]) ++ acc) [] :=
  rfl

theorem replaceAllChar_mkAppend (c : Char) (r : String) (a b : List Char) :
    replaceAllChar c r ⟨a ++ b⟩
      = ⟨(replaceAllChar c r ⟨a⟩).data ++ (replaceAllChar c r ⟨b⟩).data⟩ := by
  apply data_ext
  simp only [replaceAllChar_data, List.foldr_append]
  rw [foldr_blob]

theorem escapeHtml_mkAppend (a b : List Char) :
    escapeHtml ⟨a ++ b⟩ = ⟨(escapeHtml ⟨a⟩).data ++ (escapeHtml ⟨b⟩).data⟩ := by
  unfold escapeHtml
  rw [replaceAllChar_mkAppend '&' "&amp;" a b]
  rw [replaceAllChar_mkAppend '<' "&lt;"]
  rw [replaceAllChar_mkAppend '>' "&gt;"]
  rw [replaceAllChar_mkAppend '"' "&quot;"]

theorem escapeHtml_single (x : Char) :
    (escapeHtml ⟨[x]⟩).data = escCharL x := by
  by_cases h1 : x = '&'
  · subst h1; decide
  by_cases h2 : x = '<'
  · subst h2; decide
  by_cases h3 : x = '>'
  · subst h3; decide
  by_cases h4 : x = '"'
  · subst h4; decide
  simp [escapeHtml, replaceAllChar, escCharL, h1, h2, h3, h4]

theorem escapeHtml_data (l : List Char) :
    (escapeHtml ⟨l⟩).data = (l.map escCharL).flatten := by
  induction l with
  | nil => rfl
  | cons x xs ih =>
    have : (⟨x :: xs⟩ : String) = ⟨[x] ++ xs⟩ := rfl
    rw [this, escapeHtml_mkAppend, escapeHtml_single]
    simp [ih]

theorem escCharL_no_specials (c x : Char)
    (hx : x = '<' ∨ x = '>' ∨ x = '"') : x ∉ escCharL c := by
  by_cases h1 : c = '&'
  · subst h1; rcases hx with h | h | h <;> subst h <;> decide
  by_cases h2 : c = '<'
  · subst h2; rcases hx with h | h | h <;> subst h <;> decide
  by_cases h3 : c = '>'
  · subst h3; rcases hx with h | h | h <;> subst h <;> decide
  by_cases h4 : c = '"'
  · subst h4; rcases hx with h | h | h <;> subst h <;> decide
  simp only [escCharL, if_neg h1, if_neg h2, if_neg h3, if_neg h4,
    List.mem_singleton]
  rcases hx with h | h | h
  · subst h; exact fun hh => h2 hh.symm
  · subst h; exact fun hh => h3 hh.symm
  · subst h; exact fun hh => h4 hh.symm

theorem escapeHtml_no_special (s : String) (x : Char)
    (hx : x = '<' ∨ x = '>' ∨ x = '"') : x ∉ (escapeHtml s).data := by
  intro hmem
  have hdata : (escapeHtml s).data = (s.data.map escCharL).flatten :=
    escapeHtml_data s.data
  rw [hdata] at hmem
  rcases List.mem_flatten.mp hmem with ⟨part, hpart, hxin⟩
  rcases List.mem_map.mp hpart with ⟨c, _, rfl⟩
  exact escCharL_no_specials c x hx hxin

/-! ### C4: mark application order -/

theorem convertText_foldr (n : AdfNode) :
    convertText n = n.marks.foldr applyMark (escapeHtml (n.text.getD "")) := by
  unfold convertText
  rw [List.foldl_reverse]

/-- C4.  Marks are applied outside-in relative to declaration order: the
codec folds `applyMark` over the mark list from the right (it iterates the
reversed array), so the first-declared mark is the outermost wrapper, and a
text node with marks `[A, B]` converts to `A ( B ( text ) )`. -/
theorem claim_C4_mark_order :
    (∀ n : AdfNode,
       convertText n = n.marks.foldr applyMark (escapeHtml (n.text.getD ""))) ∧
    (∀ (fm : FileMap) (a : Attrs) (c : AdfList) (s : String) (A B : Mark),
       convertNode fm (AdfNode.mk "text" a c (some s) [A, B])
         = applyMark A (applyMark B (escapeHtml s))) := by
  refine ⟨convertText_foldr, fun fm a c s A B => ?_⟩
  rfl

/-! ### C5: escaping discipline -/

/-- C5.  Escaping property: `escapeHtml` is exactly the character map that
sends `&`, `<`, `>`, `"` to their entities and leaves everything else
alone, so its output never contains a literal `<`, `>` or `"` and every
`&` it emits starts an entity; every text node's literal text passes
through `escapeHtml` before marks wrap it; and a code block's literal body
is emitted verbatim between the CDATA delimiters, never entity-escaped. -/
theorem claim_C5_escaping :
    (∀ s : String,
       (escapeHtml s).data = (s.data.map escCharL).flatten ∧
       '<' ∉ (escapeHtml s).data ∧ '>' ∉ (escapeHtml s).data ∧
       '"' ∉ (escapeHtml s).data) ∧
    (∀ n : AdfNode,
       convertText n = n.marks.foldr applyMark (escapeHtml (n.text.getD ""))) ∧
    (∀ n : AdfNode,
       convertCodeBlock n
         = "<ac:structured-macro ac:name=\"code\">"
           ++ (match truthy n.attrs.language with
               | some language =>
                 "<ac:parameter ac:name=\"language\">" ++ escapeHtml language
                   ++ "</ac:parameter>"
               | none => "")
           ++ "<ac:plain-text-body><![CDATA[" ++ codeTextOf n.content
           ++ "]]></ac:plain-text-body>"
           ++ "</ac:structured-macro>") := by
  refine ⟨fun s => ⟨escapeHtml_data s.data, ?_, ?_, ?_⟩, convertText_foldr,
    fun n => ?_⟩
  · exact escapeHtml_no_special s '<' (Or.inl rfl)
  · exact escapeHtml_no_special s '>' (Or.inr (Or.inl rfl))
  · exact escapeHtml_no_special s '"' (Or.inr (Or.inr rfl))
  · rfl

/-! ### C8: unknown node types degrade to children-only rendering -/

/-- C8 (amended).  A node whose type is not in the dispatch table and is
non-empty (the source's truthiness guard `if (!node || !node.type)
return ""` fires on a falsy type) converts to exactly the concatenation of
its converted children, with no wrapping element; the codec is a total
function, so unknown types never abort conversion. -/
theorem claim_C8_unknown_type (fm : FileMap) (t : String) (a : Attrs)
    (c : AdfList) (tx : Option String) (m : List Mark)
    (h : t ∉ knownNodeTypes) (hne : t ≠ "") :
    convertNode fm (AdfNode.mk t a c tx m) = convertChildren fm c := by
  simp only [knownNodeTypes, List.mem_cons, List.not_mem_nil, or_false] at h
  push_neg at h
  obtain ⟨h1, h2, h3, h4, h5, h6, h7, h8, h9, h10, h11, h12, h13, h14, h15,
    h16, h17, h18, h19, h20, h21, h22, h23, h24, h25, h26, h27⟩ := h
  simp only [convertNode, if_neg hne, if_neg h1, if_neg h2, if_neg h3,
    if_neg h4, if_neg h5, if_neg h6, if_neg h7, if_neg h8, if_neg h9,
    if_neg h10, if_neg h11, if_neg h12, if_neg h13, if_neg h14, if_neg h15,
    if_neg h16, if_neg h17, if_neg h18, if_neg h19, if_neg h20, if_neg h21,
    if_neg h24, if_neg h25, if_neg h26, if_neg h27]
  rw [if_neg]
  simp [h22, h23]

/-- C8 counterexample: the claim as stated is false for a node with an
empty `type`.  The empty string is not in the dispatch table, yet the
source's guard `if (!node || !node.type) return ""` makes such a node
convert to the empty string, not to its converted children (here a
paragraph that renders as `<p>one</p>`). -/
theorem claim_C8_counterexample :
    ("" ∉ knownNodeTypes) ∧
    convertNode []
        (AdfNode.mk "" {}
          (AdfList.cons
            (AdfNode.mk "paragraph" {}
              (AdfList.cons (AdfNode.mk "text" {} .nil (some "one") []) .nil)
              none []) .nil)
          none [])
      = "" ∧
    convertChildren []
        (AdfList.cons
          (AdfNode.mk "paragraph" {}
            (AdfList.cons (AdfNode.mk "text" {} .nil (some "one") []) .nil)
            none []) .nil)
      = "<p>one</p>" :=
  ⟨by decide, by decide, by decide⟩

/-- Witness for C8: a `futureBlock` node with two paragraph children
converts to the two paragraphs' markup concatenated, with no wrapper. -/
theorem claim_C8_witness :
    "futureBlock" ∉ knownNodeTypes ∧ "futureBlock" ≠ "" ∧
    convertNode []
        (AdfNode.mk "futureBlock" {}
          (AdfList.cons
            (AdfNode.mk "paragraph" {}
              (AdfList.cons (AdfNode.mk "text" {} .nil (some "one") []) .nil)
              none [])
            (AdfList.cons
              (AdfNode.mk "paragraph" {}
                (AdfList.cons (AdfNode.mk "text" {} .nil (some "two") []) .nil)
                none [])
              .nil))
          none [])
      = "<p>one</p><p>two</p>" := by
  refine ⟨by decide, by decide, ?_⟩
  rw [claim_C8_unknown_type [] "futureBlock" {} _ none [] (by decide)
    (by decide)]
  decide

/-! ### C3: conversion failure leaves the write payload untouched -/

/-- C3.  On a content-update write whose payload embeds a serialized
document tree, a parse failure (the modelled `JSON.parse` exception, caught
by the source) leaves the request — in particular its tree payload —
completely unchanged, and the substitution step still returns a request for
the write to proceed with; no error value is ever produced. -/
theorem claim_C3_conversion_failure (urlSuffix : String) (fm : FileMap)
    (parse : String → Option AdfNode) (req : RequestConfig) (d : ReqData)
    (b : ReqBody) (adfBody : FormatVal)
    (hd : req.data = some d) (hb : d.body = some b)
    (ha : b.atlas_doc_format = some adfBody)
    (hparse : parse adfBody.value = none) :
    writeSubstitution urlSuffix fm parse req = req := by
  unfold writeSubstitution
  simp only [hd, hb, ha]
  by_cases hc : (methodIsPut req && urlIsContentWrite req.url) = true
  · simp only [if_pos hc, hparse]
  · simp only [if_neg hc]

/-- Witness for C3: a concrete failing parse leaves a concrete content
update request unchanged. -/
theorem claim_C3_witness :
    writeSubstitution "/rest" [] (fun _ => none)
        { method := some "PUT", url := some "/api/content/42",
          data := some
            { body := some
                { atlas_doc_format := some ⟨"\x7bbad json", "atlas_doc_format"⟩ },
              ancestors := some ["7"], extra := [("version", "3")] } }
      = { method := some "PUT", url := some "/api/content/42",
          data := some
            { body := some
                { atlas_doc_format := some ⟨"\x7bbad json", "atlas_doc_format"⟩ },
              ancestors := some ["7"], extra := [("version", "3")] } } :=
  claim_C3_conversion_failure "/rest" [] (fun _ => none) _ _ _ _
    rfl rfl rfl rfl

/-! ### C7: ancestor stripping on the Data Center variant -/

theorem writeSubstitution_ancestors (urlSuffix : String) (fm : FileMap)
    (parse : String → Option AdfNode) (req : RequestConfig) :
    (writeSubstitution urlSuffix fm parse req).data.map ReqData.ancestors
      = req.data.map ReqData.ancestors := by
  unfold writeSubstitution
  rcases hd : req.data with _ | d
  · simp [hd]
  rcases hb : d.body with _ | b
  · simp [hb, hd]
  rcases ha : b.atlas_doc_format with _ | adfBody
  · simp [hb, ha, hd]
  simp only [hb, ha]
  rcases hp : parse adfBody.value with _ | tree
  · split_ifs <;> simp [hd]
  · split_ifs <;> simp [hd]

/-- C7.  On the self-hosted (Data Center, `/rest`) variant, a page-update
`PUT` whose payload carries an `ancestors` relocation instruction has that
instruction removed before sending while every other payload field (body
and remaining fields) is unchanged; on the hosted (`/wiki/rest`) variant
the stripping step is the identity, and the whole outbound pipeline
preserves the `ancestors` field of the payload. -/
theorem claim_C7_ancestor_strip :
    (∀ (req : RequestConfig) (d : ReqData) (anc : List String),
       methodIsPut req = true →
       (match req.url with
        | some u => isContentPagePath u
        | none => false) = true →
       req.data = some d → d.ancestors = some anc →
       stripAncestors "/rest" req
         = { req with
               data := some
                 { body := d.body, ancestors := none, extra := d.extra } }) ∧
    (∀ req : RequestConfig, stripAncestors "/wiki/rest" req = req) ∧
    (∀ (fm : FileMap) (parse : String → Option AdfNode) (req : RequestConfig),
       ((outboundTransform "/wiki/rest" fm parse req).1).data.map
           ReqData.ancestors
         = req.data.map ReqData.ancestors) := by
  refine ⟨fun req d anc hput hurl hd hanc => ?_, fun req => rfl,
    fun fm parse req => ?_⟩
  · unfold stripAncestors
    rw [if_pos (by simp [hput, hurl, hd, hanc])]
    simp only [hd]
  · show ((methodRewriteAttachment "/wiki/rest"
      (stripAncestors "/wiki/rest"
        (writeSubstitution "/wiki/rest" fm parse req))).1).data.map
          ReqData.ancestors = _
    have hstrip : stripAncestors "/wiki/rest"
        (writeSubstitution "/wiki/rest" fm parse req)
        = writeSubstitution "/wiki/rest" fm parse req := rfl
    have hmr : (methodRewriteAttachment "/wiki/rest"
        (writeSubstitution "/wiki/rest" fm parse req)).1
        = writeSubstitution "/wiki/rest" fm parse req := rfl
    rw [hstrip, hmr, writeSubstitution_ancestors]

/-- Witness for C7: a concrete Data Center page update loses exactly its
`ancestors` field. -/
theorem claim_C7_witness :
    stripAncestors "/rest"
        { method := some "put", url := some "/api/content/42",
          data := some
            { body := some { storage := some ⟨"<p>x</p>", "storage"⟩ },
              ancestors := some ["7"], extra := [("version", "3")] } }
      = { method := some "put", url := some "/api/content/42",
          data := some
            { body := some { storage := some ⟨"<p>x</p>", "storage"⟩ },
              ancestors := none, extra := [("version", "3")] } } := by
  rw [claim_C7_ancestor_strip.1 _
    { body := some { storage := some ⟨"<p>x</p>", "storage"⟩ },
      ancestors := some ["7"], extra := [("version", "3")] } ["7"]
    (by decide) (by decide) rfl rfl]

/-! ### C9: the attachment-name cache is monotone -/

theorem lookupFM_mapSet (m : FileMap) (k v key : String) :
    lookupFM (mapSet m k v) key = if key = k then some v else lookupFM m key := by
  induction m with
  | nil => simp [mapSet, lookupFM]
  | cons p rest ih =>
    obtain ⟨k', v'⟩ := p
    by_cases hk : k = k'
    · subst hk
      by_cases hkey : key = k
      · simp [mapSet, lookupFM, hkey]
      · simp [mapSet, lookupFM, hkey]
    · simp only [mapSet, if_neg hk, lookupFM]
      by_cases hkey : key = k'
      · rw [if_pos hkey]
        rw [if_neg (fun h1 => hk (h1.symm.trans hkey))]
        rw [if_pos hkey]
      · rw [if_neg hkey, ih, if_neg hkey]

theorem lookupFM_mapSet_isSome (m : FileMap) (k' v' k : String)
    (h : (lookupFM m k).isSome = true) :
    (lookupFM (mapSet m k' v') k).isSome = true := by
  rw [lookupFM_mapSet]
  split <;> simp [h]

theorem stepFileMap_mono (m : FileMap) (r : AttachmentDesc) (k : String)
    (h : (lookupFM m k).isSome = true) :
    (lookupFM (stepFileMap m r) k).isSome = true := by
  unfold stepFileMap
  split
  · rcases hi : truthy r.id with _ | i <;>
      rcases ht : truthy r.title with _ | t <;> simp only [hi, ht]
    · exact h
    · exact h
    · exact h
    · rcases hf : truthy r.fileId with _ | f <;> simp only [hf]
      · exact lookupFM_mapSet_isSome _ _ _ _ h
      · split
        · exact lookupFM_mapSet_isSome _ _ _ _ (lookupFM_mapSet_isSome _ _ _ _ h)
        · exact lookupFM_mapSet_isSome _ _ _ _ h
  · exact h

theorem foldl_stepFileMap_mono (rs : List AttachmentDesc) :
    ∀ (m : FileMap) (k : String), (lookupFM m k).isSome = true →
      (lookupFM (rs.foldl stepFileMap m) k).isSome = true := by
  induction rs with
  | nil => intro m k h; simpa using h
  | cons r rest ih =>
    intro m k h
    exact ih (stepFileMap m r) k (stepFileMap_mono m r k h)

theorem stepFileMap_provenance (m : FileMap) (r : AttachmentDesc)
    (k v : String) (h : lookupFM (stepFileMap m r) k = some v) :
    lookupFM m k = some v ∨
      (r.type = some "attachment" ∧ truthy r.title = some v ∧
        (truthy r.id = some k ∨ truthy r.fileId = some k)) := by
  unfold stepFileMap at h
  by_cases htype : r.type = some "attachment"
  · rw [if_pos htype] at h
    rcases hi : truthy r.id with _ | i <;>
        rcases ht : truthy r.title with _ | t <;> simp only [hi, ht] at h ⊢
    · exact Or.inl h
    · exact Or.inl h
    · exact Or.inl h
    · rcases hf : truthy r.fileId with _ | f <;> simp only [hf] at h ⊢
      · rw [lookupFM_mapSet] at h
        by_cases hk : k = i
        · rw [if_pos hk] at h
          exact Or.inr ⟨htype, h, Or.inl (congrArg some hk.symm)⟩
        · rw [if_neg hk] at h
          exact Or.inl h
      · by_cases hfi : f ≠ i
        · rw [if_pos hfi, lookupFM_mapSet] at h
          by_cases hk : k = f
          · rw [if_pos hk] at h
            exact Or.inr ⟨htype, h, Or.inr (congrArg some hk.symm)⟩
          · rw [if_neg hk, lookupFM_mapSet] at h
            by_cases hk2 : k = i
            · rw [if_pos hk2] at h
              exact Or.inr ⟨htype, h, Or.inl (congrArg some hk2.symm)⟩
            · rw [if_neg hk2] at h
              exact Or.inl h
        · rw [if_neg hfi, lookupFM_mapSet] at h
          by_cases hk : k = i
          · rw [if_pos hk] at h
            exact Or.inr ⟨htype, h, Or.inl (congrArg some hk.symm)⟩
          · rw [if_neg hk] at h
            exact Or.inl h
  · rw [if_neg htype] at h
    exact Or.inl h

theorem foldl_stepFileMap_provenance (rs : List AttachmentDesc) :
    ∀ (m : FileMap) (k v : String),
      lookupFM (rs.foldl stepFileMap m) k = some v →
      lookupFM m k = some v ∨
        ∃ r ∈ rs, r.type = some "attachment" ∧ truthy r.title = some v ∧
          (truthy r.id = some k ∨ truthy r.fileId = some k) := by
  induction rs with
  | nil => intro m k v h; exact Or.inl h
  | cons r rest ih =>
    intro m k v h
    rcases ih (stepFileMap m r) k v h with h1 | ⟨r', hr', hprop⟩
    · rcases stepFileMap_provenance m r k v h1 with h2 | h2
      · exact Or.inl h2
      · exact Or.inr ⟨r, List.mem_cons_self r rest, h2⟩
    · exact Or.inr ⟨r', List.mem_cons_of_mem r hr', hprop⟩

theorem stepFileMap_records (m : FileMap) (r : AttachmentDesc)
    (i t : String) (htype : r.type = some "attachment")
    (hi : truthy r.id = some i) (ht : truthy r.title = some t) :
    lookupFM (stepFileMap m r) i = some t ∧
    ∀ f, truthy r.fileId = some f → f ≠ i →
      lookupFM (stepFileMap m r) f = some t := by
  unfold stepFileMap
  rw [if_pos htype]
  simp only [hi, ht]
  constructor
  · rcases hf : truthy r.fileId with _ | f <;> simp only [hf]
    · rw [lookupFM_mapSet, if_pos rfl]
    · by_cases hfi : f ≠ i
      · rw [if_pos hfi, lookupFM_mapSet, if_neg (fun h => hfi h.symm),
          lookupFM_mapSet, if_pos rfl]
      · rw [if_neg hfi, lookupFM_mapSet, if_pos rfl]
  · intro f hf hfi
    simp only [hf]
    rw [if_pos hfi, lookupFM_mapSet, if_pos rfl]

theorem foldl_stepFileMap_records (rs : List AttachmentDesc) :
    ∀ (m : FileMap) (r : AttachmentDesc) (i t : String), r ∈ rs →
      r.type = some "attachment" → truthy r.id = some i →
      truthy r.title = some t →
      (lookupFM (rs.foldl stepFileMap m) i).isSome = true ∧
      ∀ f, truthy r.fileId = some f → f ≠ i →
        (lookupFM (rs.foldl stepFileMap m) f).isSome = true := by
  induction rs with
  | nil => intro m r i t h; cases h
  | cons r0 rest ih =>
    intro m r i t hmem htype hi ht
    rcases List.mem_cons.mp hmem with heq | hmem'
    · subst heq
      obtain ⟨hid, hfid⟩ := stepFileMap_records m r i t htype hi ht
      constructor
      · exact foldl_stepFileMap_mono rest (stepFileMap m r) i
          (by rw [hid]; rfl)
      · intro f hf hfi
        exact foldl_stepFileMap_mono rest (stepFileMap m r) f
          (by rw [hfid f hf hfi]; rfl)
    · exact ih (stepFileMap m r0) r i t hmem' htype hi ht

/-- C9.  The attachment-name cache is empty at client construction; no key
ever disappears across an inbound response processing step (`updateFileMap`
is the adapter's only cache mutation, so growth is monotone over the
adapter's lifetime); every entry of the updated cache is justified by an
attachment descriptor of the response's `results` sequence; and the
recording direction: processing a descriptor of type `attachment` with a
truthy id and title records exactly `id → title`, plus `fileId → title`
when the alternate file id is truthy and differs from the id, and both
keys are still present after the whole response is processed. -/
theorem claim_C9_cache_monotone :
    initialAttachmentFileMap = ([] : FileMap) ∧
    (∀ (m : FileMap) (rd : RespData) (k : String),
       (lookupFM m k).isSome = true →
       (lookupFM (updateFileMap m rd) k).isSome = true) ∧
    (∀ (m : FileMap) (rd : RespData) (k v : String),
       lookupFM (updateFileMap m rd) k = some v →
       lookupFM m k = some v ∨
         ∃ r ∈ rd.results.getD [], r.type = some "attachment" ∧
           truthy r.title = some v ∧
           (truthy r.id = some k ∨ truthy r.fileId = some k)) ∧
    (∀ (m : FileMap) (r : AttachmentDesc) (i t : String),
       r.type = some "attachment" → truthy r.id = some i →
       truthy r.title = some t →
       lookupFM (stepFileMap m r) i = some t ∧
       ∀ f, truthy r.fileId = some f → f ≠ i →
         lookupFM (stepFileMap m r) f = some t) ∧
    (∀ (m : FileMap) (rd : RespData) (r : AttachmentDesc) (i t : String),
       r ∈ rd.results.getD [] → r.type = some "attachment" →
       truthy r.id = some i → truthy r.title = some t →
       (lookupFM (updateFileMap m rd) i).isSome = true ∧
       ∀ f, truthy r.fileId = some f → f ≠ i →
         (lookupFM (updateFileMap m rd) f).isSome = true) := by
  refine ⟨rfl, fun m rd k h => ?_, fun m rd k v h => ?_, stepFileMap_records,
    fun m rd r i t hmem htype hi ht => ?_⟩
  · unfold updateFileMap
    rcases hres : rd.results with _ | rs
    · exact h
    · exact foldl_stepFileMap_mono rs m k h
  · unfold updateFileMap at h
    rcases hres : rd.results with _ | rs <;> rw [hres] at h
    · exact Or.inl h
    · simpa [hres] using foldl_stepFileMap_provenance rs m k v h
  · unfold updateFileMap
    rcases hres : rd.results with _ | rs
    · rw [hres, Option.getD_none] at hmem
      cases hmem
    · rw [hres, Option.getD_some] at hmem
      simp only [hres]
      exact foldl_stepFileMap_records rs m r i t hmem htype hi ht

/-- Witness for C9: a concrete present key survives a concrete cache
update, and the update records the descriptor's `id → title` and
`fileId → title` mappings, whose keys are present in the final cache. -/
theorem claim_C9_witness :
    (lookupFM [("a", "old.png")] "a").isSome = true ∧
    (lookupFM
        (updateFileMap [("a", "old.png")]
          { results := some
              [{ id := some "999", type := some "attachment",
                 title := some "diagram.png", fileId := some "f1" }] })
        "a").isSome = true ∧
    lookupFM
        (stepFileMap [("a", "old.png")]
          { id := some "999", type := some "attachment",
            title := some "diagram.png", fileId := some "f1" })
        "999" = some "diagram.png" ∧
    lookupFM
        (stepFileMap [("a", "old.png")]
          { id := some "999", type := some "attachment",
            title := some "diagram.png", fileId := some "f1" })
        "f1" = some "diagram.png" ∧
    (lookupFM
        (updateFileMap [("a", "old.png")]
          { results := some
              [{ id := some "999", type := some "attachment",
                 title := some "diagram.png", fileId := some "f1" }] })
        "999").isSome = true :=
  ⟨by decide,
    claim_C9_cache_monotone.2.1 [("a", "old.png")]
      { results := some
          [{ id := some "999", type := some "attachment",
             title := some "diagram.png", fileId := some "f1" }] }
      "a" (by decide),
    (claim_C9_cache_monotone.2.2.2.1 [("a", "old.png")]
      { id := some "999", type := some "attachment",
        title := some "diagram.png", fileId := some "f1" }
      "999" "diagram.png" (by decide) (by decide) (by decide)).1,
    (claim_C9_cache_monotone.2.2.2.1 [("a", "old.png")]
      { id := some "999", type := some "attachment",
        title := some "diagram.png", fileId := some "f1" }
      "999" "diagram.png" (by decide) (by decide) (by decide)).2
      "f1" (by decide) (by decide),
    (claim_C9_cache_monotone.2.2.2.2 [("a", "old.png")]
      { results := some
          [{ id := some "999", type := some "attachment",
             title := some "diagram.png", fileId := some "f1" }] }
      { id := some "999", type := some "attachment",
        title := some "diagram.png", fileId := some "f1" }
      "999" "diagram.png" (List.mem_cons_self _ _) (by decide) (by decide)
      (by decide)).1⟩

/-! ### C10: the container polyfill -/

theorem containsSubL_cons (pat : List Char) (c : Char) (l : List Char)
    (h : containsSubL pat l = true) : containsSubL pat (c :: l) = true := by
  simp [containsSubL, h]

theorem containsSubL_of_startsWith (pat l : List Char)
    (h : startsWithL pat l = true) : containsSubL pat l = true := by
  cases l with
  | nil => simpa [containsSubL] using h
  | cons c rest => simp [containsSubL, h]

theorem containsSubL_drop (pat : List Char) (n : Nat) :
    ∀ l : List Char, containsSubL pat (l.drop n) = true →
      containsSubL pat l = true := by
  induction n with
  | zero => intro l h; simpa using h
  | succ n ih =>
    intro l h
    cases l with
    | nil => simpa using h
    | cons c rest =>
      exact containsSubL_cons pat c rest (ih rest (by simpa using h))

theorem extractPageIdL_contains (l : List Char) (p : String)
    (h : extractPageIdL l = some p) :
    containsSubL "/child/attachment".data l = true := by
  induction l with
  | nil => simp [extractPageIdL] at h
  | cons c rest ih =>
    unfold extractPageIdL at h
    by_cases hs : startsWithL "/api/content/".data (c :: rest) = true
    · rw [if_pos hs] at h
      by_cases hseg : (!(((c :: rest).drop "/api/content/".data.length).takeWhile
            (fun ch => ch ≠ '/')).isEmpty
          && startsWithL "/child/attachment".data
            (((c :: rest).drop "/api/content/".data.length).drop
              (((c :: rest).drop "/api/content/".data.length).takeWhile
                (fun ch => ch ≠ '/')).length)) = true
      · have hsw := (Bool.and_eq_true _ _).mp hseg |>.2
        have h1 : containsSubL "/child/attachment".data
            (((c :: rest).drop "/api/content/".data.length).drop
              (((c :: rest).drop "/api/content/".data.length).takeWhile
                (fun ch => ch ≠ '/')).length) = true :=
          containsSubL_of_startsWith _ _ hsw
        rw [List.drop_drop] at h1
        exact containsSubL_drop _ _ _ h1
      · rw [if_neg hseg] at h
        exact containsSubL_cons _ _ _ (ih h)
    · rw [if_neg hs] at h
      exact containsSubL_cons _ _ _ (ih h)

/-- C10.  On a successful response to a request whose URL matches
`/api/content/{pageId}/child/attachment`, every element of the `results`
array without a `container` is assigned `container = {id: pageId, type:
"page"}` (with the page id taken from the request URL) and elements that
already carry a container are untouched; `processAndReturn` performs this
polyfill first, so the middleware, the cache update and the caller all see
the polyfilled data. -/
theorem claim_C10_container_polyfill :
    (∀ (url : String) (pid : String) (rd : RespData)
       (rs : List AttachmentDesc),
       extractPageId url = some pid → rd.results = some rs →
       (polyfillContainers url rd).results
         = some (rs.map (fun r =>
             match r.container with
             | none => { r with container := some ⟨pid, "page"⟩ }
             | some _ => r))) ∧
    (∀ (url : String) (m : FileMap) (rd : RespData),
       processAndReturn url m rd
         = (polyfillContainers url rd,
            updateFileMap m (polyfillContainers url rd))) := by
  refine ⟨fun url pid rd rs hpid hres => ?_, fun url m rd => rfl⟩
  unfold polyfillContainers
  rw [if_pos (show containsSubstr url "/child/attachment" = true from
    extractPageIdL_contains url.data pid hpid)]
  simp only [hpid, hres]

/-- Witness for C10: on a concrete attachment-listing response, the
descriptor without a container gets the page container, the one with a
container keeps it. -/
theorem claim_C10_witness :
    (polyfillContainers "/api/content/123/child/attachment"
        { results := some
            [{ id := some "1" },
             { id := some "2", container := some ⟨"777", "space"⟩ }] }).results
      = some
          [{ id := some "1", container := some ⟨"123", "page"⟩ },
           { id := some "2", container := some ⟨"777", "space"⟩ }] := by
  rw [claim_C10_container_polyfill.1 "/api/content/123/child/attachment" "123"
    _ [{ id := some "1" }, { id := some "2", container := some ⟨"777", "space"⟩ }]
    (by decide) rfl]
  rfl

/-! ### C1: media filename resolution -/

theorem jsOrStr_of_some (a : Option String) (b f : String)
    (ha : a = some f) (hf : f ≠ "") : jsOrStr a b = f := by
  simp [jsOrStr, truthy, ha, hf]

theorem jsOrStr_of_falsy (a : Option String) (b : String)
    (ha : truthy a = none) : jsOrStr a b = b := by
  simp [jsOrStr, ha]

/-- C1.  Filename resolution of a media node: the explicit `__fileName`
attribute wins, then the alt text, then an Attachment Name Cache lookup by
the node's id, then a lookup by the alternate file-id; the resolved name is
escaped into the emitted `ri:attachment` image element; when none of the
four steps resolves a truthy name (and the node is not external), no image
element is emitted at all; and a node carrying only an id, against a cache
holding `id → "diagram.png"`, emits an image referencing `diagram.png`. -/
theorem claim_C1_media_filename_resolution :
    (∀ (fm : FileMap) (attrs : Attrs) (f : String),
       attrs.type ≠ some "external" → attrs.fileName = some f → f ≠ "" →
       convertMedia fm attrs
         = "<ac:image" ++ mediaWidthAttr attrs ++ ">"
           ++ "<ri:attachment ri:filename=\"" ++ escapeHtml f ++ "\" />"
           ++ "</ac:image>") ∧
    (∀ (fm : FileMap) (attrs : Attrs) (a : String),
       attrs.type ≠ some "external" → truthy attrs.fileName = none →
       attrs.alt = some a → a ≠ "" →
       convertMedia fm attrs
         = "<ac:image" ++ mediaWidthAttr attrs ++ ">"
           ++ "<ri:attachment ri:filename=\"" ++ escapeHtml a ++ "\" />"
           ++ "</ac:image>") ∧
    (∀ (fm : FileMap) (attrs : Attrs) (i t : String),
       attrs.type ≠ some "external" → truthy attrs.fileName = none →
       truthy attrs.alt = none → attrs.id = some i →
       lookupFM fm i = some t → t ≠ "" →
       convertMedia fm attrs
         = "<ac:image" ++ mediaWidthAttr attrs ++ ">"
           ++ "<ri:attachment ri:filename=\"" ++ escapeHtml t ++ "\" />"
           ++ "</ac:image>") ∧
    (∀ (fm : FileMap) (attrs : Attrs) (fi t : String),
       attrs.type ≠ some "external" → truthy attrs.fileName = none →
       truthy attrs.alt = none →
       truthy (attrs.id.bind (lookupFM fm)) = none →
       attrs.fileId = some fi → lookupFM fm fi = some t → t ≠ "" →
       convertMedia fm attrs
         = "<ac:image" ++ mediaWidthAttr attrs ++ ">"
           ++ "<ri:attachment ri:filename=\"" ++ escapeHtml t ++ "\" />"
           ++ "</ac:image>") ∧
    (∀ (fm : FileMap) (attrs : Attrs),
       attrs.type ≠ some "external" → truthy attrs.fileName = none →
       truthy attrs.alt = none →
       truthy (attrs.id.bind (lookupFM fm)) = none →
       truthy (attrs.fileId.bind (lookupFM fm)) = none →
       convertMedia fm attrs = "") ∧
    (convertMedia [("att1", "diagram.png")] { id := some "att1" }
       = "<ac:image><ri:attachment ri:filename=\"diagram.png\" /></ac:image>") := by
  refine ⟨?_, ?_, ?_, ?_, ?_, by decide⟩
  · intro fm attrs f hext hf hfne
    simp only [convertMedia, if_neg hext]
    rw [jsOrStr_of_some _ _ _ hf hfne, if_pos hfne]
  · intro fm attrs a hext hfn ha hane
    simp only [convertMedia, if_neg hext]
    rw [jsOrStr_of_falsy _ _ hfn, jsOrStr_of_some _ _ _ ha hane, if_pos hane]
  · intro fm attrs i t hext hfn halt hid hlook htne
    simp only [convertMedia, if_neg hext]
    rw [jsOrStr_of_falsy _ _ hfn, jsOrStr_of_falsy _ _ halt,
      jsOrStr_of_some _ _ _ (by rw [hid]; exact hlook) htne, if_pos htne]
  · intro fm attrs fi t hext hfn halt hidlook hfi hlook htne
    simp only [convertMedia, if_neg hext]
    rw [jsOrStr_of_falsy _ _ hfn, jsOrStr_of_falsy _ _ halt,
      jsOrStr_of_falsy _ _ hidlook,
      jsOrStr_of_some _ _ _ (by rw [hfi]; exact hlook) htne, if_pos htne]
  · intro fm attrs hext hfn halt hidlook hfilook
    simp only [convertMedia, if_neg hext]
    rw [jsOrStr_of_falsy _ _ hfn, jsOrStr_of_falsy _ _ halt,
      jsOrStr_of_falsy _ _ hidlook, jsOrStr_of_falsy _ _ hfilook]
    simp

/-- Witness for C1: the cache-lookup-by-id step at concrete inputs. -/
theorem claim_C1_witness :
    convertMedia [("att1", "diagram.png")] { id := some "att1" }
      = "<ac:image" ++ mediaWidthAttr { id := some "att1" } ++ ">"
        ++ "<ri:attachment ri:filename=\"" ++ escapeHtml "diagram.png"
        ++ "\" />" ++ "</ac:image>" :=
  claim_C1_media_filename_resolution.2.2.1 [("att1", "diagram.png")]
    { id := some "att1" } "att1" "diagram.png" (by decide) rfl rfl rfl rfl
    (by decide)

/-! ### C2: the Data Center duplicate-filename retry -/

/-- C2.  When a rewritten attachment upload fails with a duplicate-name
error body, the adapter issues the attachment-listing `GET` and exactly one
retry `POST` of the same binary body to the matching attachment's `/data`
endpoint, reporting overall success when the retry succeeds; when the
matching attachment cannot be identified the original error propagates
with no retry `POST`; when the retry fails the original error propagates
after the single retry `POST`; and over all inputs the adapter never issues
more than one retry `POST`. -/
theorem claim_C2_duplicate_retry :
    (∀ (host urlSuffix u pid : String) (status : Nat)
       (respText sentBody : String) (cache : FileMap)
       (listResp : ListResponse) (retryResp : RetryResponse)
       (rs : List AttachmentDesc) (fn : String) (a : AttachmentDesc)
       (aid : String),
       respText ≠ "" →
       containsSubstr respText "same file name" = true →
       extractPageId u = some pid →
       listResp.status = 200 → listResp.results = some rs →
       extractFilename respText = some fn →
       rs.find? (fun a0 => a0.title == some fn) = some a →
       truthy a.id = some aid → retryResp.status < 400 →
       dcDuplicateRetry host urlSuffix true (some u) status respText sentBody
           cache listResp retryResp
         = (SendOutcome.ok
              (processAndReturn u cache (wrapRetryData retryResp)).1
              (processAndReturn u cache (wrapRetryData retryResp)).2,
            [⟨host ++ urlSuffix ++ "/api/content/" ++ pid
                ++ "/child/attachment?limit=200", "GET", ""⟩,
             ⟨host ++ urlSuffix ++ "/api/content/" ++ pid
                ++ "/child/attachment/" ++ aid ++ "/data", "POST",
                sentBody⟩])) ∧
    (∀ (host urlSuffix u pid : String) (status : Nat)
       (respText sentBody : String) (cache : FileMap)
       (listResp : ListResponse) (retryResp : RetryResponse)
       (rs : List AttachmentDesc) (fn : String),
       respText ≠ "" →
       containsSubstr respText "same file name" = true →
       extractPageId u = some pid →
       listResp.status = 200 → listResp.results = some rs →
       extractFilename respText = some fn →
       rs.find? (fun a0 => a0.title == some fn) = none →
       dcDuplicateRetry host urlSuffix true (some u) status respText sentBody
           cache listResp retryResp
         = (SendOutcome.httpError status respText,
            [⟨host ++ urlSuffix ++ "/api/content/" ++ pid
                ++ "/child/attachment?limit=200", "GET", ""⟩])) ∧
    (∀ (host urlSuffix u pid : String) (status : Nat)
       (respText sentBody : String) (cache : FileMap)
       (listResp : ListResponse) (retryResp : RetryResponse)
       (rs : List AttachmentDesc) (fn : String) (a : AttachmentDesc)
       (aid : String),
       respText ≠ "" →
       containsSubstr respText "same file name" = true →
       extractPageId u = some pid →
       listResp.status = 200 → listResp.results = some rs →
       extractFilename respText = some fn →
       rs.find? (fun a0 => a0.title == some fn) = some a →
       truthy a.id = some aid → ¬retryResp.status < 400 →
       dcDuplicateRetry host urlSuffix true (some u) status respText sentBody
           cache listResp retryResp
         = (SendOutcome.httpError status respText,
            [⟨host ++ urlSuffix ++ "/api/content/" ++ pid
                ++ "/child/attachment?limit=200", "GET", ""⟩,
             ⟨host ++ urlSuffix ++ "/api/content/" ++ pid
                ++ "/child/attachment/" ++ aid ++ "/data", "POST",
                sentBody⟩])) ∧
    (∀ (host urlSuffix : String) (isRewritten : Bool)
       (reqUrl : Option String) (status : Nat)
       (respText sentBody : String) (cache : FileMap)
       (listResp : ListResponse) (retryResp : RetryResponse),
       ((dcDuplicateRetry host urlSuffix isRewritten reqUrl status respText
           sentBody cache listResp retryResp).2.filter
         (fun f => f.method == "POST")).length ≤ 1) := by
  refine ⟨?_, ?_, ?_, ?_⟩
  · intro host urlSuffix u pid status respText sentBody cache listResp
      retryResp rs fn a aid hne hcont hpid hstat hres hfn hfind haid hretry
    simp only [dcDuplicateRetry, if_neg hne, hcont, Bool.and_true, hpid,
      hstat, hres, hfn, hfind, haid, if_pos hretry, Bool.and_self,
      if_pos rfl, reduceIte]
  · intro host urlSuffix u pid status respText sentBody cache listResp
      retryResp rs fn hne hcont hpid hstat hres hfn hfind
    simp only [dcDuplicateRetry, if_neg hne, hcont, Bool.and_true, hpid,
      hstat, hres, hfn, hfind, Bool.and_self, if_pos rfl, reduceIte]
  · intro host urlSuffix u pid status respText sentBody cache listResp
      retryResp rs fn a aid hne hcont hpid hstat hres hfn hfind haid hretry
    simp only [dcDuplicateRetry, if_neg hne, hcont, Bool.and_true, hpid,
      hstat, hres, hfn, hfind, haid, if_neg hretry, Bool.and_self,
      if_pos rfl, reduceIte]
  · intro host urlSuffix isRewritten reqUrl status respText sentBody cache
      listResp retryResp
    unfold dcDuplicateRetry
    by_cases hc : (isRewritten && containsSubstr
        (if respText = "" then "(empty response)" else respText)
        "same file name") = true
    · rw [if_pos hc]
      rcases reqUrl with _ | u
      · simp
      · rcases hpid : extractPageId u with _ | pid <;> simp only [hpid]
        · simp
        · by_cases hls : listResp.status = 200
          · rw [if_pos hls]
            rcases hres : listResp.results with _ | rs <;> simp only [hres]
            · simp
            · rcases hfn : extractFilename
                  (if respText = "" then "(empty response)" else respText)
                  with _ | fn <;> simp only [hfn]
              · simp
              · rcases hfind : rs.find? (fun a0 => a0.title == some fn)
                    with _ | a <;> simp only [hfind]
                · simp
                · rcases haid : truthy a.id with _ | aid <;> simp only [haid]
                  · simp
                  · by_cases hrs : retryResp.status < 400
                    · rw [if_pos hrs]
                      simp +decide [List.filter]
                    · rw [if_neg hrs]
                      simp +decide [List.filter]
          · rw [if_neg hls]
            simp
    · rw [if_neg hc]
      simp

/-- Witness for C2: the spec's retry scenario — a duplicate-name error for
`diagram.png` and an existing attachment titled `diagram.png` with id
`999` produce exactly one follow-up `POST` to that id's update-data
endpoint and, on its success, an overall success. -/
theorem claim_C2_witness :
    dcDuplicateRetry "https://conf" "/rest" true
        (some "/api/content/42/child/attachment") 400
        "Cannot add a new attachment with same file name as an existing attachment: diagram.png"
        "BINARY" []
        { status := 200,
          results := some [{ id := some "999", type := some "attachment",
                             title := some "diagram.png" }] }
        { status := 200, textBlank := true }
      = (SendOutcome.ok
           (processAndReturn "/api/content/42/child/attachment" []
             (wrapRetryData { status := 200, textBlank := true })).1
           (processAndReturn "/api/content/42/child/attachment" []
             (wrapRetryData { status := 200, textBlank := true })).2,
         [⟨"https://conf" ++ "/rest" ++ "/api/content/" ++ "42"
             ++ "/child/attachment?limit=200", "GET", ""⟩,
          ⟨"https://conf" ++ "/rest" ++ "/api/content/" ++ "42"
             ++ "/child/attachment/" ++ "999" ++ "/data", "POST",
             "BINARY"⟩]) :=
  claim_C2_duplicate_retry.1 "https://conf" "/rest"
    "/api/content/42/child/attachment" "42" 400
    "Cannot add a new attachment with same file name as an existing attachment: diagram.png"
    "BINARY" []
    { status := 200,
      results := some [{ id := some "999", type := some "attachment",
                         title := some "diagram.png" }] }
    { status := 200, textBlank := true }
    [{ id := some "999", type := some "attachment",
       title := some "diagram.png" }]
    "diagram.png"
    { id := some "999", type := some "attachment",
      title := some "diagram.png" }
    "999"
    (by decide) (by decide) (by decide) rfl rfl (by decide) (by decide)
    (by decide) (by decide)

/-! ### C6: well-formedness of the codec output — automaton lemmas -/

theorem foldl_dead (l : List Char) : l.foldl wfStep .dead = .dead := by
  induction l with
  | nil => rfl
  | cons c rest ih => simpa [wfStep] using ih

theorem wfStep_stack (m : WfMode) (a : List (List Char)) (c : Char)
    (m1 : WfMode) (a1 : List (List Char))
    (h : wfStep (.ok m a) c = .ok m1 a1) (st : List (List Char)) :
    wfStep (.ok m (a ++ st)) c = .ok m1 (a1 ++ st) := by
  simp only [wfStep] at h ⊢
  cases hact : wfAct m c with
  | stay m' =>
    rw [hact] at h
    have h' : WfSt.ok m' a = WfSt.ok m1 a1 := h
    injection h' with h1 h2
    subst h1; subst h2
    rfl
  | push n m' =>
    rw [hact] at h
    have h' : WfSt.ok m' (n :: a) = WfSt.ok m1 a1 := h
    injection h' with h1 h2
    subst h1; subst h2
    rfl
  | pop n m' =>
    rw [hact] at h
    cases a with
    | nil =>
      have h' : WfSt.dead = WfSt.ok m1 a1 := h
      cases h'
    | cons top rest =>
      have h' : (if top = n then WfSt.ok m' rest else WfSt.dead)
          = WfSt.ok m1 a1 := h
      by_cases htop : top = n
      · rw [if_pos htop] at h'
        injection h' with h1 h2
        subst h1; subst h2
        show (if top = n then WfSt.ok m' (rest ++ st) else WfSt.dead)
          = WfSt.ok m' (rest ++ st)
        rw [if_pos htop]
      · rw [if_neg htop] at h'
        cases h'
  | die =>
    rw [hact] at h
    have h' : WfSt.dead = WfSt.ok m1 a1 := h
    cases h'

theorem foldl_stack_mono (l : List Char) :
    ∀ (m : WfMode) (a : List (List Char)) (m' : WfMode)
      (a' : List (List Char)) (st : List (List Char)),
      l.foldl wfStep (.ok m a) = .ok m' a' →
      l.foldl wfStep (.ok m (a ++ st)) = .ok m' (a' ++ st) := by
  induction l with
  | nil =>
    intro m a m' a' st h
    injection h with h1 h2
    subst h1; subst h2; rfl
  | cons c rest ih =>
    intro m a m' a' st h
    simp only [List.foldl_cons] at h ⊢
    cases hs : wfStep (.ok m a) c with
    | ok m1 a1 =>
      rw [hs] at h
      rw [wfStep_stack _ _ _ _ _ hs st]
      exact ih _ _ _ _ st h
    | dead =>
      rw [hs, foldl_dead] at h
      cases h

theorem run_lit (lit : String) (m m' : WfMode) (a a' : List (List Char))
    (h : lit.data.foldl wfStep (.ok m a) = .ok m' a') (st : List (List Char)) :
    lit.data.foldl wfStep (.ok m (a ++ st)) = .ok m' (a' ++ st) :=
  foldl_stack_mono lit.data m a m' a' st h

theorem run_push (lit : String) (nm : List Char)
    (h : lit.data.foldl wfStep (.ok .text []) = .ok .text [nm])
    (st : List (List Char)) :
    lit.data.foldl wfStep (.ok .text st) = .ok .text (nm :: st) := by
  simpa using run_lit lit .text .text [] [nm] h st

theorem run_pop (lit : String) (nm : List Char)
    (h : lit.data.foldl wfStep (.ok .text [nm]) = .ok .text [])
    (st : List (List Char)) :
    lit.data.foldl wfStep (.ok .text (nm :: st)) = .ok .text st := by
  simpa using run_lit lit .text .text [nm] [] h st

theorem run_neutral (lit : String)
    (h : lit.data.foldl wfStep (.ok .text []) = .ok .text [])
    (st : List (List Char)) :
    lit.data.foldl wfStep (.ok .text st) = .ok .text st := by
  simpa using run_lit lit .text .text [] [] h st

theorem run_textChars (l : List Char) (hl : ∀ c ∈ l, c ≠ '<') :
    ∀ st, l.foldl wfStep (.ok .text st) = .ok .text st := by
  induction l with
  | nil => intro st; rfl
  | cons c rest ih =>
    intro st
    have hc : c ≠ '<' := hl c (List.mem_cons_self c rest)
    simp only [List.foldl_cons, wfStep, wfAct, if_neg hc]
    exact ih (fun c hc2 => hl c (List.mem_cons_of_mem _ hc2)) st

theorem tagNameChar_ne (c : Char) (hc : tagNameChar c = true) :
    c ≠ '>' ∧ c ≠ '<' ∧ c ≠ '/' := by
  refine ⟨?_, ?_, ?_⟩ <;> intro he <;> subst he <;> simp [tagNameChar] at hc

theorem run_openName (l : List Char) (hl : ∀ c ∈ l, tagNameChar c = true) :
    ∀ (n : List Char) (st : List (List Char)),
      l.foldl wfStep (.ok (.openName n) st) = .ok (.openName (n ++ l)) st := by
  induction l with
  | nil => intro n st; simp
  | cons c rest ih =>
    intro n st
    have hc : tagNameChar c = true := hl c (List.mem_cons_self c rest)
    simp only [List.foldl_cons, wfStep, wfAct, if_pos hc]
    rw [ih (fun c hc2 => hl c (List.mem_cons_of_mem _ hc2)) (n ++ [c]) st]
    simp

theorem run_closeName (l : List Char) (hl : ∀ c ∈ l, tagNameChar c = true) :
    ∀ (n : List Char) (st : List (List Char)),
      l.foldl wfStep (.ok (.closeName n) st) = .ok (.closeName (n ++ l)) st := by
  induction l with
  | nil => intro n st; simp
  | cons c rest ih =>
    intro n st
    have hc : tagNameChar c = true := hl c (List.mem_cons_self c rest)
    simp only [List.foldl_cons, wfStep, wfAct, if_pos hc]
    rw [ih (fun c hc2 => hl c (List.mem_cons_of_mem _ hc2)) (n ++ [c]) st]
    simp

theorem run_attrs (l : List Char) (hl : ∀ c ∈ l, c ≠ '<' ∧ c ≠ '>') :
    ∀ (n : List Char) (last : Char) (st : List (List Char)),
      l.foldl wfStep (.ok (.openAttrs n last) st)
        = .ok (.openAttrs n (l.getLastD last)) st := by
  induction l with
  | nil => intro n last st; simp [List.getLastD]
  | cons c rest ih =>
    intro n last st
    have hc := hl c (List.mem_cons_self c rest)
    simp only [List.foldl_cons, wfStep, wfAct, if_neg hc.2, if_neg hc.1]
    rw [ih (fun c hc2 => hl c (List.mem_cons_of_mem _ hc2)) n c st]
    rw [List.getLastD_cons]

theorem step_openAttrs_char (nm : List Char) (last c : Char)
    (st : List (List Char)) (hc : c ≠ '<' ∧ c ≠ '>') :
    wfStep (.ok (.openAttrs nm last) st) c = .ok (.openAttrs nm c) st := by
  simp [wfStep, wfAct, hc.1, hc.2]

theorem run_cdata (l : List Char) :
    ∀ (k k' : Nat) (st : List (List Char)), cdataScan k l = some k' →
      l.foldl wfStep (.ok (.cdata k) st) = .ok (.cdata k') st := by
  induction l with
  | nil =>
    intro k k' st h
    injection h with h1
    subst h1; rfl
  | cons c rest ih =>
    intro k k' st h
    simp only [cdataScan] at h
    by_cases hbr : c = ']'
    · rw [if_pos hbr] at h
      subst hbr
      simp only [List.foldl_cons, wfStep, wfAct, if_pos rfl]
      exact ih _ _ st h
    · rw [if_neg hbr] at h
      by_cases hgt : c = '>'
      · rw [if_pos hgt] at h
        subst hgt
        by_cases hk : 2 ≤ k
        · rw [if_pos hk] at h; cases h
        · rw [if_neg hk] at h
          simp only [List.foldl_cons, wfStep, wfAct,
            if_neg (by decide : ¬(('>' : Char) = ']')), if_pos rfl, if_neg hk]
          exact ih _ _ st h
      · rw [if_neg hgt] at h
        simp only [List.foldl_cons, wfStep, wfAct, if_neg hbr, if_neg hgt]
        exact ih _ _ st h

theorem run_cdataEnd (k : Nat) (st : List (List Char)) :
    [']', ']', '>'].foldl wfStep (.ok (.cdata k) st) = .ok .text st := by
  have h2 : 2 ≤ min (min (k + 1) 2 + 1) 2 := by omega
  simp [wfStep, wfAct, List.foldl_cons, if_pos h2]

theorem containsSubL_prepend (pat ys : List Char) :
    ∀ xs, containsSubL pat xs = true → containsSubL pat (ys ++ xs) = true := by
  induction ys with
  | nil => intro xs h; simpa using h
  | cons y ys ih =>
    intro xs h
    exact containsSubL_cons pat y (ys ++ xs) (ih xs h)

theorem cdataScan_none_contains (l : List Char) :
    ∀ k, cdataScan k l = none →
      containsSubL "]]>".data (List.replicate (min k 2) ']' ++ l) = true := by
  induction l with
  | nil => intro k h; cases h
  | cons c rest ih =>
    intro k h
    simp only [cdataScan] at h
    by_cases hbr : c = ']'
    · rw [if_pos hbr] at h
      subst hbr
      have hrec := ih (min (k + 1) 2) h
      by_cases hk : 2 ≤ k
      · have e1 : min k 2 = 2 := by omega
        have e2 : min (min (k + 1) 2) 2 = 2 := by omega
        rw [e2] at hrec
        rw [e1]
        have heq : (List.replicate 2 ']' ++ ']' :: rest : List Char)
            = ']' :: (List.replicate 2 ']' ++ rest) := by rfl
        rw [heq]
        exact containsSubL_cons _ _ _ hrec
      · have e1 : min k 2 = k := by omega
        have e2 : min (min (k + 1) 2) 2 = k + 1 := by omega
        rw [e2] at hrec
        rw [e1]
        have heq : (List.replicate k ']' ++ ']' :: rest : List Char)
            = List.replicate (k + 1) ']' ++ rest := by
          rw [List.replicate_succ']
          simp
        rw [heq]
        exact hrec
    · rw [if_neg hbr] at h
      by_cases hgt : c = '>'
      · rw [if_pos hgt] at h
        subst hgt
        by_cases hk : 2 ≤ k
        · have e1 : min k 2 = 2 := by omega
          rw [e1]
          apply containsSubL_of_startsWith
          simp [startsWithL]
        · rw [if_neg hk] at h
          have hrec := ih 0 h
          simp only [Nat.zero_min, List.replicate_zero, List.nil_append] at hrec
          have hgoal : (List.replicate (min k 2) ']' ++ '>' :: rest : List Char)
              = (List.replicate (min k 2) ']' ++ ['>']) ++ rest := by simp
          rw [hgoal]
          exact containsSubL_prepend _ _ _ hrec
      · rw [if_neg hgt] at h
        have hrec := ih 0 h
        simp only [Nat.zero_min, List.replicate_zero, List.nil_append] at hrec
        have hgoal : (List.replicate (min k 2) ']' ++ c :: rest : List Char)
            = (List.replicate (min k 2) ']' ++ [c]) ++ rest := by simp
        rw [hgoal]
        exact containsSubL_prepend _ _ _ hrec

theorem cdataScan_isSome (l : List Char)
    (h : containsSubL "]]>".data l = false) : ∃ k', cdataScan 0 l = some k' := by
  rcases hscan : cdataScan 0 l with _ | k'
  · have hcontains := cdataScan_none_contains l 0 hscan
    simp only [Nat.zero_min, List.replicate_zero, List.nil_append] at hcontains
    rw [hcontains] at h
    cases h
  · exact ⟨k', rfl⟩

/-! ### C6: well-formed fragments -/

theorem wfFrag_append {a b : String} (ha : WfFrag a) (hb : WfFrag b) :
    WfFrag (a ++ b) := by
  intro st
  rw [String.data_append a b, List.foldl_append, ha st, hb st]

theorem wfFrag_empty : WfFrag "" := fun _ => rfl

theorem wfFrag_text (s : String) (hs : ∀ c ∈ s.data, c ≠ '<') : WfFrag s :=
  fun st => run_textChars s.data hs st

theorem escapeHtml_safeChars (s : String) :
    ∀ c ∈ (escapeHtml s).data, c ≠ '<' ∧ c ≠ '>' := by
  intro c hc
  constructor
  · intro he
    exact escapeHtml_no_special s '<' (Or.inl rfl) (he ▸ hc)
  · intro he
    exact escapeHtml_no_special s '>' (Or.inr (Or.inl rfl)) (he ▸ hc)

theorem wfFrag_escapeHtml (s : String) : WfFrag (escapeHtml s) :=
  wfFrag_text _ (fun c hc => (escapeHtml_safeChars s c hc).1)

theorem digitChar_isDigit (m : Nat) (h : m < 10) :
    (Nat.digitChar m).isDigit = true := by
  interval_cases m <;> decide

theorem natCharsAux_digits :
    ∀ (fuel n : Nat), ∀ c ∈ natCharsAux fuel n, c.isDigit = true := by
  intro fuel
  induction fuel with
  | zero => intro n c hc; simp [natCharsAux] at hc
  | succ f ih =>
    intro n c hc
    simp only [natCharsAux] at hc
    by_cases hn : n < 10
    · rw [if_pos hn] at hc
      simp only [List.mem_singleton] at hc
      subst hc
      exact digitChar_isDigit n hn
    · rw [if_neg hn] at hc
      rcases List.mem_append.mp hc with hc | hc
      · exact ih _ c hc
      · simp only [List.mem_singleton] at hc
        subst hc
        exact digitChar_isDigit _ (Nat.mod_lt _ (by decide))

theorem natStr_digits (n : Nat) : ∀ c ∈ (natStr n).data, c.isDigit = true :=
  natCharsAux_digits (n + 1) n

theorem digit_tagNameChar (c : Char) (h : c.isDigit = true) :
    tagNameChar c = true := by
  simp [tagNameChar, h]

theorem digit_safeChars (c : Char) (h : c.isDigit = true) :
    c ≠ '<' ∧ c ≠ '>' := by
  constructor <;> intro he <;> subst he <;> exact absurd h (by decide)

theorem natStr_safeChars (n : Nat) :
    ∀ c ∈ (natStr n).data, c ≠ '<' ∧ c ≠ '>' :=
  fun c hc => digit_safeChars c (natStr_digits n c hc)

theorem getLastD_append_ne (l1 : List Char) :
    ∀ (l2 : List Char) (d : Char), l2 ≠ [] →
      (l1 ++ l2).getLastD d = l2.getLastD d := by
  induction l1 with
  | nil => intro l2 d _; rfl
  | cons x xs ih =>
    intro l2 d h
    rw [List.cons_append, List.getLastD_cons, ih l2 x h]
    cases l2 with
    | nil => exact absurd rfl h
    | cons y ys => rw [List.getLastD_cons, List.getLastD_cons]

theorem attrProps_empty : AttrProps "" :=
  ⟨by simp, Or.inl rfl, by decide⟩

theorem attrProps_append {a b : String} (ha : AttrProps a) (hb : AttrProps b) :
    AttrProps (a ++ b) := by
  obtain ⟨ham, hah, hal⟩ := ha
  obtain ⟨hbm, hbh, hbl⟩ := hb
  refine ⟨?_, ?_, ?_⟩
  · intro c hc
    rw [String.data_append a b] at hc
    rcases List.mem_append.mp hc with hc | hc
    exacts [ham c hc, hbm c hc]
  · rw [String.data_append a b]
    rcases hah with hae | ⟨c0, rest, heq, hc0⟩
    · rw [hae]
      simpa using hbh
    · exact Or.inr ⟨c0, rest ++ b.data, by rw [heq]; simp, hc0⟩
  · rw [String.data_append a b]
    rcases hbh with hbe | ⟨c0, rest, heq, _⟩
    · rw [hbe, List.append_nil]
      exact hal
    · rw [heq, getLastD_append_ne a.data (c0 :: rest) ' ' (by simp)]
      rw [heq] at hbl
      exact hbl

theorem attrProps_quoted (pre v : String)
    (hh : ∃ rest, pre.data = ' ' :: rest)
    (hpm : ∀ c ∈ pre.data, c ≠ '<' ∧ c ≠ '>')
    (hv : ∀ c ∈ v.data, c ≠ '<' ∧ c ≠ '>') :
    AttrProps (pre ++ v ++ "\"") := by
  obtain ⟨rest, hrest⟩ := hh
  refine ⟨?_, ?_, ?_⟩
  · intro c hc
    rw [String.data_append (pre ++ v) "\"", String.data_append pre v] at hc
    rcases List.mem_append.mp hc with hc | hc
    · rcases List.mem_append.mp hc with hc | hc
      exacts [hpm c hc, hv c hc]
    · simp only [show ("\"" : String).data = ['"'] from rfl,
        List.mem_singleton] at hc
      subst hc
      exact ⟨by decide, by decide⟩
  · rw [String.data_append (pre ++ v) "\"", String.data_append pre v, hrest]
    exact Or.inr ⟨' ', rest ++ v.data ++ "\"".data, by simp, by decide⟩
  · rw [String.data_append (pre ++ v) "\""]
    rw [show ("\"" : String).data = ['"'] from rfl]
    rw [List.getLastD_concat]
    decide

theorem run_attrsSection (nm : List Char) (attrs : String)
    (hp : AttrProps attrs) (st : List (List Char)) :
    ∃ mode, attrs.data.foldl wfStep (.ok (.openName nm) st) = .ok mode st ∧
      wfStep (.ok mode st) '>' = .ok .text (nm :: st) := by
  obtain ⟨hmem, hhead, hlast⟩ := hp
  rcases hhead with he | ⟨c0, rest, heq, hc0⟩
  · refine ⟨.openName nm, ?_, ?_⟩
    · rw [he]; rfl
    · simp [wfStep, wfAct, tagNameChar]
  · refine ⟨.openAttrs nm (rest.getLastD c0), ?_, ?_⟩
    · rw [heq, List.foldl_cons]
      have hc0mem : c0 ≠ '<' ∧ c0 ≠ '>' :=
        hmem c0 (by rw [heq]; exact List.mem_cons_self c0 rest)
      have hstep : wfStep (.ok (.openName nm) st) c0
          = .ok (.openAttrs nm c0) st := by
        simp [wfStep, wfAct, hc0, hc0mem.1, hc0mem.2]
      rw [hstep]
      exact run_attrs rest
        (fun c hc => hmem c (by rw [heq]; exact List.mem_cons_of_mem _ hc))
        nm c0 st
    · have hlast' : rest.getLastD c0 ≠ '/' := by
        rw [heq, List.getLastD_cons] at hlast
        exact hlast
      have hact : wfAct (.openAttrs nm (rest.getLastD c0)) '>'
          = .push nm .text := by
        have hred : wfAct (.openAttrs nm (rest.getLastD c0)) '>'
            = (if ('>' : Char) = '>' then
                (if rest.getLastD c0 = '/' then WfAct.stay .text
                 else WfAct.push nm .text)
               else if ('>' : Char) = '<' then WfAct.die
               else WfAct.stay (.openAttrs nm '>')) := rfl
        rw [hred, if_pos rfl, if_neg hlast']
      have hfin : wfStep (.ok (.openAttrs nm (rest.getLastD c0)) st) '>'
          = .ok .text (nm :: st) := by
        have hred : wfStep (.ok (.openAttrs nm (rest.getLastD c0)) st) '>'
            = (match wfAct (.openAttrs nm (rest.getLastD c0)) '>' with
               | WfAct.stay m' => WfSt.ok m' st
               | WfAct.push n m' => WfSt.ok m' (n :: st)
               | WfAct.pop n m' =>
                 (match st with
                  | top :: st' => if top = n then WfSt.ok m' st' else WfSt.dead
                  | [] => WfSt.dead)
               | WfAct.die => WfSt.dead) := rfl
        rw [hred, hact]
      exact hfin

theorem wfFrag_wrap (pre post inner : String) (nm : List Char)
    (hpre : pre.data.foldl wfStep (.ok .text []) = .ok .text [nm])
    (hpost : post.data.foldl wfStep (.ok .text [nm]) = .ok .text [])
    (hin : WfFrag inner) : WfFrag (pre ++ inner ++ post) := by
  intro st
  rw [String.data_append (pre ++ inner) post, String.data_append pre inner,
    List.foldl_append, List.foldl_append]
  rw [run_push pre nm hpre st, hin (nm :: st), run_pop post nm hpost st]

theorem wfFrag_escWrap (preLit esc inner post : String) (nm : List Char)
    (c0 : Char)
    (hpre : preLit.data.foldl wfStep (.ok .text []) = .ok (.openAttrs nm c0) [])
    (hesc : ∀ c ∈ esc.data, c ≠ '<' ∧ c ≠ '>')
    (hin : WfFrag inner)
    (hpost : post.data.foldl wfStep (.ok .text [nm]) = .ok .text []) :
    WfFrag (preLit ++ esc ++ "\">" ++ inner ++ post) := by
  intro st
  simp only [String.data_append, List.foldl_append]
  have h1 : preLit.data.foldl wfStep (.ok .text st)
      = .ok (.openAttrs nm c0) st := by
    simpa using run_lit preLit .text (.openAttrs nm c0) [] [] hpre st
  rw [h1]
  rw [run_attrs esc.data hesc nm c0 st]
  have h2 : ("\">" : String).data.foldl wfStep
      (.ok (.openAttrs nm (esc.data.getLastD c0)) st) = .ok .text (nm :: st) := by
    rw [show ("\">" : String).data = ['"', '>'] from rfl]
    rw [List.foldl_cons,
      step_openAttrs_char nm (esc.data.getLastD c0) '"' st ⟨by decide, by decide⟩]
    simp [wfStep, wfAct]
  rw [h2, hin (nm :: st), run_pop post nm hpost st]

theorem wfFrag_applyMark (mark : Mark) (inner : String) (hin : WfFrag inner) :
    WfFrag (applyMark mark inner) := by
  unfold applyMark
  split_ifs
  · exact wfFrag_wrap _ _ _ "strong".data (by decide) (by decide) hin
  · exact wfFrag_wrap _ _ _ "em".data (by decide) (by decide) hin
  · exact wfFrag_wrap _ _ _ "code".data (by decide) (by decide) hin
  · exact wfFrag_wrap _ _ _ "s".data (by decide) (by decide) hin
  · exact wfFrag_wrap _ _ _ "u".data (by decide) (by decide) hin
  · exact wfFrag_wrap _ _ _ "sub".data (by decide) (by decide) hin
  · exact wfFrag_wrap _ _ _ "sup".data (by decide) (by decide) hin
  · exact hin
  · exact wfFrag_escWrap "<span style=\"color: " _ inner "</span>"
      "span".data ' ' (by decide) (escapeHtml_safeChars _) hin (by decide)
  · exact wfFrag_escWrap "<a href=\"" _ inner "</a>"
      "a".data '"' (by decide) (escapeHtml_safeChars _) hin (by decide)
  · exact hin

theorem wfFrag_convertText (n : AdfNode) : WfFrag (convertText n) := by
  rw [convertText_foldr]
  induction n.marks with
  | nil => exact wfFrag_escapeHtml _
  | cons mk rest ih =>
    rw [List.foldr_cons]
    exact wfFrag_applyMark mk _ ih

theorem wfFrag_convertCodeBlock (n : AdfNode)
    (hsafe : containsSubL "]]>".data (codeTextOf n.content).data = false) :
    WfFrag (convertCodeBlock n) := by
  obtain ⟨k', hk'⟩ := cdataScan_isSome _ hsafe
  have hLP : WfFrag (match truthy n.attrs.language with
      | some language =>
        "<ac:parameter ac:name=\"language\">" ++ escapeHtml language
          ++ "</ac:parameter>"
      | none => "") := by
    rcases truthy n.attrs.language with _ | language
    · exact wfFrag_empty
    · exact wfFrag_wrap _ _ _ "ac:parameter".data (by decide) (by decide)
        (wfFrag_escapeHtml language)
  intro st
  simp only [convertCodeBlock]
  rw [String.data_append, String.data_append, String.data_append,
    String.data_append, String.data_append]
  rw [List.foldl_append, List.foldl_append, List.foldl_append,
    List.foldl_append, List.foldl_append]
  rw [run_push "<ac:structured-macro ac:name=\"code\">"
    "ac:structured-macro".data (by decide) st]
  rw [hLP ("ac:structured-macro".data :: st)]
  have hB : ("<ac:plain-text-body><![CDATA[" : String).data.foldl wfStep
      (.ok .text ("ac:structured-macro".data :: st))
      = .ok (.cdata 0)
          ("ac:plain-text-body".data :: "ac:structured-macro".data :: st) := by
    simpa using run_lit "<ac:plain-text-body><![CDATA[" .text (.cdata 0)
      [] ["ac:plain-text-body".data] (by decide)
      ("ac:structured-macro".data :: st)
  rw [hB]
  rw [run_cdata (codeTextOf n.content).data 0 k' _ hk']
  rw [show ("]]></ac:plain-text-body>" : String).data
    = [']', ']', '>'] ++ ("</ac:plain-text-body>" : String).data from rfl]
  rw [List.foldl_append, run_cdataEnd k' _]
  rw [run_pop "</ac:plain-text-body>" "ac:plain-text-body".data (by decide) _]
  rw [run_pop "</ac:structured-macro>" "ac:structured-macro".data (by decide) st]

theorem string_ne_empty_of_cons (s : String) (c : Char) (l : List Char)
    (h : s.data = c :: l) : s ≠ "" := by
  intro he
  rw [he] at h
  cases h

theorem litChars_safe (s : String)
    (hs : s.data.all (fun c => (c != '<') && (c != '>')) = true) :
    ∀ c ∈ s.data, c ≠ '<' ∧ c ≠ '>' := by
  intro c hc
  have h := List.all_eq_true.mp hs c hc
  simp only [Bool.and_eq_true, bne_iff_ne, ne_eq] at h
  exact h

theorem attrProps_mediaWidth (attrs : Attrs) :
    AttrProps (mediaWidthAttr attrs) := by
  unfold mediaWidthAttr
  rcases attrs.width with _ | w
  · exact attrProps_empty
  · show AttrProps (if w ≠ 0 then " ac:width=\"" ++ natStr w ++ "\"" else "")
    by_cases hw : w ≠ 0
    · rw [if_pos hw]
      exact attrProps_quoted " ac:width=\"" (natStr w) ⟨_, rfl⟩ (by decide)
        (natStr_safeChars w)
    · rw [if_neg hw]
      exact attrProps_empty

theorem attrProps_tableAttrs (attrs : Attrs) :
    AttrProps (tableAttrs attrs) := by
  simp only [tableAttrs]
  apply attrProps_append
  · rcases truthy attrs.layout with _ | layout
    · exact attrProps_empty
    · exact attrProps_quoted " class=\"" (escapeHtml layout) ⟨_, rfl⟩
        (by decide) (escapeHtml_safeChars _)
  · rcases attrs.width with _ | w
    · exact attrProps_empty
    · show AttrProps
        (if (if w ≠ 0 then "width: " ++ natStr w ++ "px;" else "") ≠ "" then
          " style=\"" ++ (if w ≠ 0 then "width: " ++ natStr w ++ "px;" else "")
            ++ "\""
        else "")
      by_cases hw : w ≠ 0
      · rw [if_pos hw]
        rw [if_pos (string_ne_empty_of_cons _ 'w'
          ("idth: ".data ++ (natStr w).data ++ "px;".data)
          (by rw [String.data_append, String.data_append]; rfl))]
        refine attrProps_quoted " style=\"" ("width: " ++ natStr w ++ "px;")
          ⟨_, rfl⟩ (by decide) ?_
        intro c hc
        rw [String.data_append, String.data_append] at hc
        rcases List.mem_append.mp hc with hc | hc
        · rcases List.mem_append.mp hc with hc | hc
          · exact litChars_safe "width: " (by decide) c hc
          · exact natStr_safeChars w c hc
        · exact litChars_safe "px;" (by decide) c hc
      · rw [if_neg hw]
        rw [if_neg (by simp)]
        exact attrProps_empty

theorem attrProps_cellAttrs (attrs : Attrs) :
    AttrProps (cellAttrs attrs) := by
  unfold cellAttrs
  apply attrProps_append
  apply attrProps_append
  · rcases attrs.colspan with _ | c
    · exact attrProps_empty
    · show AttrProps
        (if c ≠ 0 ∧ 1 < c then " colspan=\"" ++ natStr c ++ "\"" else "")
      by_cases hc : c ≠ 0 ∧ 1 < c
      · rw [if_pos hc]
        exact attrProps_quoted " colspan=\"" (natStr c) ⟨_, rfl⟩ (by decide)
          (natStr_safeChars c)
      · rw [if_neg hc]
        exact attrProps_empty
  · rcases attrs.rowspan with _ | r
    · exact attrProps_empty
    · show AttrProps
        (if r ≠ 0 ∧ 1 < r then " rowspan=\"" ++ natStr r ++ "\"" else "")
      by_cases hr : r ≠ 0 ∧ 1 < r
      · rw [if_pos hr]
        exact attrProps_quoted " rowspan=\"" (natStr r) ⟨_, rfl⟩ (by decide)
          (natStr_safeChars r)
      · rw [if_neg hr]
        exact attrProps_empty
  · rcases truthy attrs.background with _ | b
    · exact attrProps_empty
    · exact attrProps_quoted " style=\"background-color: " (escapeHtml b)
        ⟨_, rfl⟩ (by decide) (escapeHtml_safeChars _)

theorem run_closeSelf (nm : List Char) (last : Char) (st : List (List Char)) :
    ("\" />" : String).data.foldl wfStep (.ok (.openAttrs nm last) st)
      = .ok .text st := by
  rw [show ("\" />" : String).data = ['"', ' ', '/', '>'] from rfl]
  rw [List.foldl_cons, step_openAttrs_char nm last '"' st ⟨by decide, by decide⟩]
  rfl

theorem wfFrag_convertMedia (fm : FileMap) (attrs : Attrs) :
    WfFrag (convertMedia fm attrs) := by
  simp only [convertMedia]
  split_ifs with hext hfile
  · intro st
    repeat rw [String.data_append]
    repeat rw [List.foldl_append]
    have hA : ("<ac:image" : String).data.foldl wfStep (.ok .text st)
        = .ok (.openName "ac:image".data) st := rfl
    rw [hA]
    obtain ⟨mode, hW, hGT⟩ := run_attrsSection "ac:image".data
      (mediaWidthAttr attrs) (attrProps_mediaWidth attrs) st
    rw [hW]
    have hGTrun : (">" : String).data.foldl wfStep (.ok mode st)
        = .ok .text ("ac:image".data :: st) := by
      rw [show (">" : String).data = ['>'] from rfl, List.foldl_cons, hGT]
      rfl
    rw [hGTrun]
    have hB : ("<ri:url ri:value=\"" : String).data.foldl wfStep
        (.ok .text ("ac:image".data :: st))
        = .ok (.openAttrs "ri:url".data '"') ("ac:image".data :: st) := rfl
    rw [hB]
    rw [run_attrs (escapeHtml (attrs.url.getD "")).data
      (escapeHtml_safeChars _) "ri:url".data '"' ("ac:image".data :: st)]
    rw [run_closeSelf "ri:url".data _ ("ac:image".data :: st)]
    have hD : ("</ac:image>" : String).data.foldl wfStep
        (.ok .text ("ac:image".data :: st)) = .ok .text st := rfl
    rw [hD]
  · intro st
    repeat rw [String.data_append]
    repeat rw [List.foldl_append]
    have hA : ("<ac:image" : String).data.foldl wfStep (.ok .text st)
        = .ok (.openName "ac:image".data) st := rfl
    rw [hA]
    obtain ⟨mode, hW, hGT⟩ := run_attrsSection "ac:image".data
      (mediaWidthAttr attrs) (attrProps_mediaWidth attrs) st
    rw [hW]
    have hGTrun : (">" : String).data.foldl wfStep (.ok mode st)
        = .ok .text ("ac:image".data :: st) := by
      rw [show (">" : String).data = ['>'] from rfl, List.foldl_cons, hGT]
      rfl
    rw [hGTrun]
    have hB : ("<ri:attachment ri:filename=\"" : String).data.foldl wfStep
        (.ok .text ("ac:image".data :: st))
        = .ok (.openAttrs "ri:attachment".data '"') ("ac:image".data :: st) :=
      rfl
    rw [hB]
    rw [run_attrs (escapeHtml _).data (escapeHtml_safeChars _)
      "ri:attachment".data '"' ("ac:image".data :: st)]
    rw [run_closeSelf "ri:attachment".data _ ("ac:image".data :: st)]
    have hD : ("</ac:image>" : String).data.foldl wfStep
        (.ok .text ("ac:image".data :: st)) = .ok .text st := rfl
    rw [hD]
  · exact wfFrag_empty

theorem wfFrag_attrWrap (preLit : String) (nm : List Char)
    (a post inner : String)
    (hpre : preLit.data.foldl wfStep (.ok .text []) = .ok (.openName nm) [])
    (ha : AttrProps a)
    (hpost : post.data.foldl wfStep (.ok .text [nm]) = .ok .text [])
    (hin : WfFrag inner) :
    WfFrag (preLit ++ a ++ ">" ++ inner ++ post) := by
  intro st
  repeat rw [String.data_append]
  repeat rw [List.foldl_append]
  have h1 : preLit.data.foldl wfStep (.ok .text st)
      = .ok (.openName nm) st := by
    simpa using run_lit preLit .text (.openName nm) [] [] hpre st
  rw [h1]
  obtain ⟨mode, hW, hGT⟩ := run_attrsSection nm a ha st
  rw [hW]
  have h2 : (">" : String).data.foldl wfStep (.ok mode st)
      = .ok .text (nm :: st) := by
    rw [show (">" : String).data = ['>'] from rfl, List.foldl_cons, hGT]
    rfl
  rw [h2, hin (nm :: st), run_pop post nm hpost st]

theorem wfFrag_table_out (attrs : Attrs) (inner : String) (hin : WfFrag inner) :
    WfFrag ("<table" ++ tableAttrs attrs ++ "><tbody>" ++ inner
      ++ "</tbody></table>") := by
  intro st
  repeat rw [String.data_append]
  repeat rw [List.foldl_append]
  have h1 : ("<table" : String).data.foldl wfStep (.ok .text st)
      = .ok (.openName "table".data) st := rfl
  rw [h1]
  obtain ⟨mode, hW, hGT⟩ := run_attrsSection "table".data (tableAttrs attrs)
    (attrProps_tableAttrs attrs) st
  rw [hW]
  have h2 : ("><tbody>" : String).data.foldl wfStep (.ok mode st)
      = .ok .text ("tbody".data :: "table".data :: st) := by
    rw [show ("><tbody>" : String).data
      = '>' :: ("<tbody>" : String).data from rfl, List.foldl_cons, hGT]
    rfl
  rw [h2, hin ("tbody".data :: "table".data :: st)]
  rfl

theorem wfFrag_heading_out (level : Nat) (inner : String) (hin : WfFrag inner) :
    WfFrag ("<h" ++ natStr level ++ ">" ++ inner ++ "</h" ++ natStr level
      ++ ">") := by
  intro st
  repeat rw [String.data_append]
  repeat rw [List.foldl_append]
  have hdig : ∀ c ∈ (natStr level).data, tagNameChar c = true :=
    fun c hc => digit_tagNameChar c (natStr_digits level c hc)
  have h1 : ("<h" : String).data.foldl wfStep (.ok .text st)
      = .ok (.openName ['h']) st := rfl
  rw [h1, run_openName (natStr level).data hdig ['h'] st]
  have h2 : (">" : String).data.foldl wfStep
      (.ok (.openName (['h'] ++ (natStr level).data)) st)
      = .ok .text ((['h'] ++ (natStr level).data) :: st) := rfl
  rw [h2, hin ((['h'] ++ (natStr level).data) :: st)]
  have h3 : ("</h" : String).data.foldl wfStep
      (.ok .text ((['h'] ++ (natStr level).data) :: st))
      = .ok (.closeName ['h']) ((['h'] ++ (natStr level).data) :: st) := rfl
  rw [h3, run_closeName (natStr level).data hdig ['h'] _]
  rw [show (">" : String).data = ['>'] from rfl, List.foldl_cons]
  show (if ['h'] ++ (natStr level).data = ['h'] ++ (natStr level).data then
    WfSt.ok WfMode.text st else WfSt.dead) = WfSt.ok WfMode.text st
  rw [if_pos rfl]

theorem wfFrag_richMacro (p1 p2 esc inner : String)
    (hp1 : p1.data.foldl wfStep (.ok .text [])
      = .ok .text ["ac:structured-macro".data])
    (hp2 : p2.data.foldl wfStep (.ok .text [])
      = .ok .text ["ac:parameter".data])
    (hesc : WfFrag esc) (hin : WfFrag inner) :
    WfFrag (p1 ++ p2 ++ esc ++ "</ac:parameter>" ++ "<ac:rich-text-body>"
      ++ inner ++ "</ac:rich-text-body>" ++ "</ac:structured-macro>") := by
  intro st
  repeat rw [String.data_append]
  repeat rw [List.foldl_append]
  rw [run_push p1 "ac:structured-macro".data hp1 st]
  rw [run_push p2 "ac:parameter".data hp2 _]
  rw [hesc _]
  rw [run_pop "</ac:parameter>" "ac:parameter".data (by decide) _]
  rw [run_push "<ac:rich-text-body>" "ac:rich-text-body".data (by decide) _]
  rw [hin _]
  rw [run_pop "</ac:rich-text-body>" "ac:rich-text-body".data (by decide) _]
  rw [run_pop "</ac:structured-macro>" "ac:structured-macro".data
    (by decide) st]

theorem wfFrag_status_out (esc1 esc2 : String)
    (h1 : WfFrag esc1) (h2 : WfFrag esc2) :
    WfFrag ("<ac:structured-macro ac:name=\"status\">"
      ++ "<ac:parameter ac:name=\"title\">" ++ esc1 ++ "</ac:parameter>"
      ++ "<ac:parameter ac:name=\"colour\">" ++ esc2 ++ "</ac:parameter>"
      ++ "</ac:structured-macro>") := by
  intro st
  repeat rw [String.data_append]
  repeat rw [List.foldl_append]
  rw [run_push "<ac:structured-macro ac:name=\"status\">"
    "ac:structured-macro".data (by decide) st]
  rw [run_push "<ac:parameter ac:name=\"title\">" "ac:parameter".data
    (by decide) _]
  rw [h1 _]
  rw [run_pop "</ac:parameter>" "ac:parameter".data (by decide) _]
  rw [run_push "<ac:parameter ac:name=\"colour\">" "ac:parameter".data
    (by decide) _]
  rw [h2 _]
  rw [run_pop "</ac:parameter>" "ac:parameter".data (by decide) _]
  rw [run_pop "</ac:structured-macro>" "ac:structured-macro".data
    (by decide) st]

theorem wfFrag_taskItem_out (word inner : String)
    (hw : ∀ c ∈ word.data, c ≠ '<') (hin : WfFrag inner) :
    WfFrag ("<li><ac:task><ac:task-status>" ++ word
      ++ "</ac:task-status><ac:task-body>" ++ inner
      ++ "</ac:task-body></ac:task></li>") := by
  intro st
  repeat rw [String.data_append]
  repeat rw [List.foldl_append]
  have hA : ("<li><ac:task><ac:task-status>" : String).data.foldl wfStep
      (.ok .text st)
      = .ok .text ("ac:task-status".data :: "ac:task".data :: "li".data :: st)
      := rfl
  rw [hA, run_textChars word.data hw _]
  have hB : ("</ac:task-status><ac:task-body>" : String).data.foldl wfStep
      (.ok .text ("ac:task-status".data :: "ac:task".data :: "li".data :: st))
      = .ok .text ("ac:task-body".data :: "ac:task".data :: "li".data :: st)
      := rfl
  rw [hB, hin _]
  rfl

theorem wfFrag_mention_out (esc : String)
    (hesc : ∀ c ∈ esc.data, c ≠ '<' ∧ c ≠ '>') :
    WfFrag ("<ac:link><ri:user ri:account-id=\"" ++ esc
      ++ "\" /></ac:link>") := by
  intro st
  repeat rw [String.data_append]
  repeat rw [List.foldl_append]
  have hA : ("<ac:link><ri:user ri:account-id=\"" : String).data.foldl wfStep
      (.ok .text st)
      = .ok (.openAttrs "ri:user".data '"') ("ac:link".data :: st) := rfl
  rw [hA, run_attrs esc.data hesc "ri:user".data '"' _]
  rw [show ("\" /></ac:link>" : String).data
    = ("\" />" : String).data ++ ("</ac:link>" : String).data from rfl,
    List.foldl_append]
  rw [run_closeSelf "ri:user".data _ _]
  rfl

set_option maxHeartbeats 2000000 in
mutual
/-- Under the `safeNode` input condition, every node's emitted markup is a
well-formed fragment of the markup automaton. -/
theorem wfFrag_convertNode (fm : FileMap) :
    ∀ n : AdfNode, safeNode n = true → WfFrag (convertNode fm n)
  | AdfNode.mk t attrs content txt marks, h => by
    simp only [safeNode, Bool.and_eq_true] at h
    obtain ⟨⟨hcode, hemoji⟩, hsl⟩ := h
    have hch : WfFrag (convertChildren fm content) :=
      wfFrag_convertChildren fm content hsl
    simp only [convertNode]
    by_cases h0 : t = ""
    · rw [if_pos h0]; exact wfFrag_empty
    rw [if_neg h0]
    by_cases h1 : t = "doc"
    · rw [if_pos h1]; exact hch
    rw [if_neg h1]
    by_cases h2 : t = "paragraph"
    · rw [if_pos h2]
      exact wfFrag_wrap "<p>" "</p>" _ "p".data (by decide) (by decide) hch
    rw [if_neg h2]
    by_cases h3 : t = "heading"
    · rw [if_pos h3]; exact wfFrag_heading_out (attrs.level.getD 1) _ hch
    rw [if_neg h3]
    by_cases h4 : t = "text"
    · rw [if_pos h4]; exact wfFrag_convertText _
    rw [if_neg h4]
    by_cases h5 : t = "hardBreak"
    · rw [if_pos h5]; exact fun st => rfl
    rw [if_neg h5]
    by_cases h6 : t = "rule"
    · rw [if_pos h6]; exact fun st => rfl
    rw [if_neg h6]
    by_cases h7 : t = "bulletList"
    · rw [if_pos h7]
      exact wfFrag_wrap "<ul>" "</ul>" _ "ul".data (by decide) (by decide) hch
    rw [if_neg h7]
    by_cases h8 : t = "orderedList"
    · rw [if_pos h8]
      exact wfFrag_wrap "<ol>" "</ol>" _ "ol".data (by decide) (by decide) hch
    rw [if_neg h8]
    by_cases h9 : t = "listItem"
    · rw [if_pos h9]
      exact wfFrag_wrap "<li>" "</li>" _ "li".data (by decide) (by decide) hch
    rw [if_neg h9]
    by_cases h10 : t = "blockquote"
    · rw [if_pos h10]
      exact wfFrag_wrap "<blockquote>" "</blockquote>" _ "blockquote".data
        (by decide) (by decide) hch
    rw [if_neg h10]
    by_cases h11 : t = "codeBlock"
    · rw [if_pos h11]
      rw [if_pos h11] at hcode
      exact wfFrag_convertCodeBlock (AdfNode.mk t attrs content txt marks)
        (by simpa using hcode)
    rw [if_neg h11]
    by_cases h12 : t = "table"
    · rw [if_pos h12]; exact wfFrag_table_out attrs _ hch
    rw [if_neg h12]
    by_cases h13 : t = "tableRow"
    · rw [if_pos h13]
      exact wfFrag_wrap "<tr>" "</tr>" _ "tr".data (by decide) (by decide) hch
    rw [if_neg h13]
    by_cases h14 : t = "tableHeader"
    · rw [if_pos h14]
      exact wfFrag_attrWrap "<th" "th".data (cellAttrs attrs) "</th>" _
        (by decide) (attrProps_cellAttrs attrs) (by decide) hch
    rw [if_neg h14]
    by_cases h15 : t = "tableCell"
    · rw [if_pos h15]
      exact wfFrag_attrWrap "<td" "td".data (cellAttrs attrs) "</td>" _
        (by decide) (attrProps_cellAttrs attrs) (by decide) hch
    rw [if_neg h15]
    by_cases h16 : t = "mediaSingle"
    · rw [if_pos h16]; exact hch
    rw [if_neg h16]
    by_cases h17 : t = "mediaGroup"
    · rw [if_pos h17]; exact hch
    rw [if_neg h17]
    by_cases h18 : t = "media"
    · rw [if_pos h18]; exact wfFrag_convertMedia fm attrs
    rw [if_neg h18]
    by_cases h19 : t = "inlineCard"
    · rw [if_pos h19]
      exact wfFrag_escWrap "<a href=\"" (escapeHtml (attrs.url.getD ""))
        (escapeHtml (attrs.url.getD "")) "</a>" "a".data '"' (by decide)
        (escapeHtml_safeChars _) (wfFrag_escapeHtml _) (by decide)
    rw [if_neg h19]
    by_cases h20 : t = "emoji"
    · rw [if_pos h20]
      rw [if_pos h20, Bool.not_eq_true'] at hemoji
      refine wfFrag_text _ (fun c hc he => ?_)
      subst he
      have h' : (emojiText attrs).data.contains '<' = true :=
        List.elem_iff.mpr hc
      exact Bool.noConfusion (h'.symm.trans hemoji)
    rw [if_neg h20]
    by_cases h21 : t = "panel"
    · rw [if_pos h21]
      exact wfFrag_richMacro "<ac:structured-macro ac:name=\"panel\">"
        "<ac:parameter ac:name=\"panelType\">"
        (escapeHtml (attrs.panelType.getD "info")) _ (by decide) (by decide)
        (wfFrag_escapeHtml _) hch
    rw [if_neg h21]
    by_cases h22 : t = "expand" ∨ t = "nestedExpand"
    · rw [if_pos h22]
      exact wfFrag_richMacro "<ac:structured-macro ac:name=\"expand\">"
        "<ac:parameter ac:name=\"title\">"
        (escapeHtml (attrs.title.getD "")) _ (by decide) (by decide)
        (wfFrag_escapeHtml _) hch
    rw [if_neg h22]
    by_cases h23 : t = "status"
    · rw [if_pos h23]
      exact wfFrag_status_out (escapeHtml (attrs.text.getD ""))
        (escapeHtml (attrs.color.getD "neutral"))
        (wfFrag_escapeHtml _) (wfFrag_escapeHtml _)
    rw [if_neg h23]
    by_cases h24 : t = "taskList"
    · rw [if_pos h24]
      exact wfFrag_wrap "<ul class=\"task-list\">" "</ul>" _ "ul".data
        (by decide) (by decide) hch
    rw [if_neg h24]
    by_cases h25 : t = "taskItem"
    · rw [if_pos h25]
      exact wfFrag_taskItem_out _ _
        (by split_ifs <;> intro c hc <;>
          exact (litChars_safe _ (by decide) c hc).1) hch
    rw [if_neg h25]
    by_cases h26 : t = "mention"
    · rw [if_pos h26]
      exact wfFrag_mention_out (escapeHtml (attrs.id.getD ""))
        (escapeHtml_safeChars _)
    rw [if_neg h26]
    exact hch
/-- `wfFrag_convertNode` over a child list. -/
theorem wfFrag_convertChildren (fm : FileMap) :
    ∀ l : AdfList, safeList l = true → WfFrag (convertChildren fm l)
  | .nil, _ => wfFrag_empty
  | .cons n rest, h => by
    simp only [safeList, Bool.and_eq_true] at h
    exact wfFrag_append (wfFrag_convertNode fm n h.1)
      (wfFrag_convertChildren fm rest h.2)
end

/-- C6 (amended).  For every document in which no code block's literal body
contains the CDATA terminator `]]>` and no emoji node's emitted raw text
contains `<` (the `safeNode` condition — these are the only two places where
input text reaches the output unescaped), the codec's output is well-formed
markup: running the tag-nesting automaton over it from text mode returns to
text mode with any stack unchanged, so every opened tag and macro element is
closed, with no mismatched nesting, and each emitted structured macro is
self-contained.  No restriction to supported node types is needed: unknown
types render their children only. -/
theorem claim_C6_wellformed_output (fm : FileMap) (n : AdfNode)
    (h : safeNode n = true) : WfFrag (convertAdfToStorageFormat fm n) := by
  rcases n with ⟨t, attrs, content, txt, marks⟩
  have hsl : safeList content = true := by
    simp only [safeNode, Bool.and_eq_true] at h
    exact h.2
  simp only [convertAdfToStorageFormat, AdfNode.type, AdfNode.content]
  by_cases hd : t = "doc"
  · rw [if_pos hd]
    exact wfFrag_convertChildren fm content hsl
  · rw [if_neg hd]
    exact wfFrag_convertNode fm ⟨t, attrs, content, txt, marks⟩ h

set_option maxRecDepth 4000 in
/-- C6 counterexample: the claim as stated is false.  A document made only
of supported node types (`doc` → `codeBlock` → `text`) whose code-block
body is the literal `]]><x>` converts to markup in which the emitted CDATA
section is terminated early by the body's own `]]>`; the following `<x>`
then opens a real element that is never closed, and the automaton rejects
the output (well-formedness fails already at the empty stack). -/
theorem claim_C6_counterexample :
    supportedNode (AdfNode.mk "doc" {}
      (AdfList.cons (AdfNode.mk "codeBlock" {}
        (AdfList.cons (AdfNode.mk "text" {} .nil (some "]]><x>") []) .nil)
        none []) .nil) none []) = true ∧
    ¬ WfFrag (convertAdfToStorageFormat []
      (AdfNode.mk "doc" {}
        (AdfList.cons (AdfNode.mk "codeBlock" {}
          (AdfList.cons (AdfNode.mk "text" {} .nil (some "]]><x>") []) .nil)
          none []) .nil) none [])) := by
  constructor
  · decide
  · intro hwf
    exact absurd (hwf []) (by decide)

/-- Witness for C6: a concrete safe document — a paragraph and a code block
whose body `if (a < b) { return; }` contains `<`, `>` and braces but not
the CDATA terminator — satisfies `safeNode`, and the automaton accepts the
converted output from the empty stack. -/
theorem claim_C6_witness :
    safeNode (AdfNode.mk "doc" {}
      (AdfList.cons (AdfNode.mk "paragraph" {}
        (AdfList.cons (AdfNode.mk "text" {} .nil (some "a < b") []) .nil)
        none [])
        (AdfList.cons (AdfNode.mk "codeBlock" {}
          (AdfList.cons
            (AdfNode.mk "text" {} .nil (some "if (a < b) \x7b return; \x7d")
              []) .nil)
          none []) .nil)) none []) = true ∧
    (convertAdfToStorageFormat []
        (AdfNode.mk "doc" {}
          (AdfList.cons (AdfNode.mk "paragraph" {}
            (AdfList.cons (AdfNode.mk "text" {} .nil (some "a < b") []) .nil)
            none [])
            (AdfList.cons (AdfNode.mk "codeBlock" {}
              (AdfList.cons
                (AdfNode.mk "text" {} .nil
                  (some "if (a < b) \x7b return; \x7d") []) .nil)
              none []) .nil)) none [])).data.foldl wfStep (.ok .text [])
      = .ok .text [] :=
  ⟨by decide,
    claim_C6_wellformed_output []
      (AdfNode.mk "doc" {}
        (AdfList.cons (AdfNode.mk "paragraph" {}
          (AdfList.cons (AdfNode.mk "text" {} .nil (some "a < b") []) .nil)
          none [])
          (AdfList.cons (AdfNode.mk "codeBlock" {}
            (AdfList.cons
              (AdfNode.mk "text" {} .nil (some "if (a < b) \x7b return; \x7d")
                []) .nil)
            none []) .nil)) none []) (by decide) []⟩

end OC
